import Mathlib

/-!
# Verification of the rlox bytecode compiler and VM (rlox-compiler crate)

Shallow embedding of `src/rlox-compiler/src/{op.rs, chunk.rs, value.rs, vm.rs,
compiler.rs}` into Lean, together with theorems settling the frozen claims about
the crate.

Modelling conventions:
* `u8` and `usize` are modelled as `Nat`; `i16` as `Int` (with explicit
  wrapping/truncation where the Rust code casts).
* Rust's `f64` is abstracted as a type parameter `Num` together with a record
  `NumOps` of the primitive operations the crate actually uses on `f64`
  (arithmetic, `<`, `==`, and `Display`).  No claim depends on floating-point
  rounding behaviour.
* Fallible Rust code (`Result`) becomes `Except`; a Rust `panic!` (or
  `unimplemented!`) is modelled by a distinguished outcome (`Option.none`,
  `CRes.fatal`, or `StepOutcome.crash`, depending on the function).
* Rust `Vec` becomes `List` in the same element order (index 0 = front);
  `HashMap` becomes an association list where the most recent insert is at the
  head and lookups take the first match.
-/

namespace RLox

/-! ## op.rs: opcode constants -/

def OP_CONSTANT : Nat := 0
def OP_TRUE : Nat := OP_CONSTANT + 1
def OP_FALSE : Nat := OP_TRUE + 1
def OP_NIL : Nat := OP_FALSE + 1
def OP_POP : Nat := OP_NIL + 1

def OP_GET_LOCAL : Nat := OP_POP + 1
def OP_SET_LOCAL : Nat := OP_GET_LOCAL + 1
def OP_GET_GLOBAL : Nat := OP_SET_LOCAL + 1
def OP_DEFINE_GLOBAL : Nat := OP_GET_GLOBAL + 1
def OP_SET_GLOBAL : Nat := OP_DEFINE_GLOBAL + 1

def OP_EQUAL : Nat := OP_SET_GLOBAL + 1
def OP_GREATER : Nat := OP_EQUAL + 1
def OP_LESS : Nat := OP_GREATER + 1
def OP_ADD : Nat := OP_LESS + 1
def OP_SUBTRACT : Nat := OP_ADD + 1
def OP_MULTIPLY : Nat := OP_SUBTRACT + 1
def OP_DIVIDE : Nat := OP_MULTIPLY + 1
def OP_NOT : Nat := OP_DIVIDE + 1
def OP_NEGATE : Nat := OP_NOT + 1

def OP_PRINT : Nat := OP_NEGATE + 1
def OP_JUMP : Nat := OP_PRINT + 1
def OP_JUMP_IF_FALSE : Nat := OP_JUMP + 1
def OP_RETURN : Nat := OP_JUMP_IF_FALSE + 1

/-! ## op.rs: the OpCode type -/

/-- `enum OpCode` from op.rs.  `u8` operands are `Nat`, `i16` operands `Int`. -/
inductive OpCode where
  | Constant (index : Nat)
  | True
  | False
  | Nil
  | Pop
  | GetLocal (index : Nat)
  | SetLocal (index : Nat)
  | GetGlobal (index : Nat)
  | DefineGlobal (index : Nat)
  | SetGlobal (index : Nat)
  | Equal
  | Greater
  | Less
  | Add
  | Subtract
  | Multiply
  | Divide
  | Not
  | Negate
  | Print
  | Jump (offset : Int)
  | JumpIfFalse (offset : Int)
  | Return
  | Unknown (val : Nat)
deriving DecidableEq, Repr

/-- `OpCode::byte_length` from op.rs. -/
def OpCode.byte_length : OpCode → Nat
  | .Constant _ => 2
  | .True => 1
  | .False => 1
  | .Nil => 1
  | .Pop => 1
  | .GetLocal _ => 2
  | .SetLocal _ => 2
  | .GetGlobal _ => 2
  | .DefineGlobal _ => 2
  | .SetGlobal _ => 2
  | .Equal => 1
  | .Greater => 1
  | .Less => 1
  | .Add => 1
  | .Subtract => 1
  | .Multiply => 1
  | .Divide => 1
  | .Not => 1
  | .Negate => 1
  | .Print => 1
  | .Jump _ => 3
  | .JumpIfFalse _ => 3
  | .Return => 1
  | .Unknown _ => 1

/-- `enum DecodeError` from op.rs. -/
inductive DecodeError where
  | EOF
  | UnexpectedEOF (n : Nat) (msg : String)
deriving DecidableEq, Repr

/-- Rust `i16::to_be_bytes`, on an in-range `Int`: the two big-endian bytes of
the value's 16-bit two's-complement representation. -/
def i16ToBeBytes (n : Int) : List Nat :=
  let u := (n % 65536).toNat
  [u / 256, u % 256]

/-- Rust `i16::from_be_bytes` on two bytes. -/
def i16FromBeBytes (b0 b1 : Nat) : Int :=
  let u := b0 * 256 + b1
  if u < 32768 then (u : Int) else (u : Int) - 65536

/-- The `constant_op!` macro body from op.rs: `bytes` is the whole remaining
slice, opcode byte included. -/
def constantOp (ctor : Nat → OpCode) (bytes : List Nat) :
    Except DecodeError (OpCode × Nat) :=
  match bytes with
  | _ :: b1 :: _ => .ok (ctor b1, 2)
  | _ => .error (.UnexpectedEOF 1 "Missing constant index")

/-- The `jump_op!` macro body from op.rs. -/
def jumpOp (ctor : Int → OpCode) (bytes : List Nat) :
    Except DecodeError (OpCode × Nat) :=
  match bytes with
  | _ :: b0 :: b1 :: _ => .ok (ctor (i16FromBeBytes b0 b1), 3)
  | _ => .error (.UnexpectedEOF 1 "Missing jump offset")

/-- `OpCode::decode` from op.rs.  The Rust `match bytes[0]` on the `OP_*`
constants is rendered as the equivalent chain of equality tests. -/
def OpCode.decode (bytes : List Nat) : Except DecodeError (OpCode × Nat) :=
  match bytes with
  | [] => .error .EOF
  | b :: _ =>
    if b = OP_CONSTANT then constantOp OpCode.Constant bytes
    else if b = OP_TRUE then .ok (.True, 1)
    else if b = OP_FALSE then .ok (.False, 1)
    else if b = OP_NIL then .ok (.Nil, 1)
    else if b = OP_POP then .ok (.Pop, 1)
    else if b = OP_GET_LOCAL then constantOp OpCode.GetLocal bytes
    else if b = OP_SET_LOCAL then constantOp OpCode.SetLocal bytes
    else if b = OP_GET_GLOBAL then constantOp OpCode.GetGlobal bytes
    else if b = OP_DEFINE_GLOBAL then constantOp OpCode.DefineGlobal bytes
    else if b = OP_SET_GLOBAL then constantOp OpCode.SetGlobal bytes
    else if b = OP_EQUAL then .ok (.Equal, 1)
    else if b = OP_GREATER then .ok (.Greater, 1)
    else if b = OP_LESS then .ok (.Less, 1)
    else if b = OP_ADD then .ok (.Add, 1)
    else if b = OP_SUBTRACT then .ok (.Subtract, 1)
    else if b = OP_MULTIPLY then .ok (.Multiply, 1)
    else if b = OP_DIVIDE then .ok (.Divide, 1)
    else if b = OP_NOT then .ok (.Not, 1)
    else if b = OP_NEGATE then .ok (.Negate, 1)
    else if b = OP_PRINT then .ok (.Print, 1)
    else if b = OP_JUMP then jumpOp OpCode.Jump bytes
    else if b = OP_JUMP_IF_FALSE then jumpOp OpCode.JumpIfFalse bytes
    else if b = OP_RETURN then .ok (.Return, 1)
    else .ok (.Unknown b, 1)

/-- `OpCode::encode` from op.rs. -/
def OpCode.encode : OpCode → List Nat
  | .Constant index => [OP_CONSTANT, index]
  | .True => [OP_TRUE]
  | .False => [OP_FALSE]
  | .Nil => [OP_NIL]
  | .Pop => [OP_POP]
  | .GetLocal index => [OP_GET_LOCAL, index]
  | .SetLocal index => [OP_SET_LOCAL, index]
  | .GetGlobal index => [OP_GET_GLOBAL, index]
  | .DefineGlobal index => [OP_DEFINE_GLOBAL, index]
  | .SetGlobal index => [OP_SET_GLOBAL, index]
  | .Equal => [OP_EQUAL]
  | .Greater => [OP_GREATER]
  | .Less => [OP_LESS]
  | .Add => [OP_ADD]
  | .Subtract => [OP_SUBTRACT]
  | .Multiply => [OP_MULTIPLY]
  | .Divide => [OP_DIVIDE]
  | .Not => [OP_NOT]
  | .Negate => [OP_NEGATE]
  | .Print => [OP_PRINT]
  | .Jump offset => OP_JUMP :: i16ToBeBytes offset
  | .JumpIfFalse offset => OP_JUMP_IF_FALSE :: i16ToBeBytes offset
  | .Return => [OP_RETURN]
  | .Unknown val => [val]

/-- An `OpCode` value whose payloads are in the range of the Rust payload types
(`u8` / `i16`), and whose `Unknown` byte is not one of the defined opcode
values `0..=22` (`OP_CONSTANT..=OP_RETURN`). -/
def OpCode.wfB : OpCode → Bool
  | .Constant i => i < 256
  | .GetLocal i => i < 256
  | .SetLocal i => i < 256
  | .GetGlobal i => i < 256
  | .DefineGlobal i => i < 256
  | .SetGlobal i => i < 256
  | .Jump o => (-32768 ≤ o) && (o < 32768)
  | .JumpIfFalse o => (-32768 ≤ o) && (o < 32768)
  | .Unknown v => (23 ≤ v) && (v < 256)
  | _ => true

/-! ## value.rs -/

/-- Alias for the Lean string type, usable inside namespaces that declare a
constructor named `String`. -/
abbrev Str := String

/-- The primitive operations the crate uses on Rust `f64`, abstracted over the
carrier type `Num`: arithmetic, `<`, `==`, and `Display`-formatting. -/
structure NumOps (Num : Type) where
  add : Num → Num → Num
  sub : Num → Num → Num
  mul : Num → Num → Num
  div : Num → Num → Num
  neg : Num → Num
  lt : Num → Num → Bool
  beq : Num → Num → Bool
  toStr : Num → String

/-- `enum Object` from value.rs. -/
inductive Object where
  | String (s : String)
deriving DecidableEq, Repr

/-- `enum Value` from value.rs (`f64` abstracted as `Num`). -/
inductive Value (Num : Type) where
  | Nil
  | Boolean (b : Bool)
  | Number (n : Num)
  | Object (o : Object)
deriving DecidableEq, Repr

variable {Num : Type}

/-- `Value::new_string` from value.rs. -/
def Value.new_string (s : String) : Value Num := .Object (.String s)

/-- `Value::as_number` from value.rs. -/
def Value.as_number : Value Num → Except Unit Num
  | .Number n => .ok n
  | _ => .error ()

/-- `Value::is_truthy` from value.rs. -/
def Value.is_truthy : Value Num → Bool
  | .Nil => false
  | .Boolean b => b
  | _ => true

/-- `Object::is_equal` from value.rs. -/
def Object.is_equal : Object → Object → Bool
  | .String left, .String right => left == right

/-- `Value::is_equal` from value.rs (`f64 == f64` is `N.beq`). -/
def Value.is_equal (N : NumOps Num) : Value Num → Value Num → Bool
  | .Nil, .Nil => true
  | .Boolean left, .Boolean right => left == right
  | .Number left, .Number right => N.beq left right
  | .Object left, .Object right => left.is_equal right
  | _, _ => false

/-- `impl Display for Object` from value.rs. -/
def Object.toStr : Object → Str
  | .String val => val

/-- `impl Display for Value` from value.rs (the display form used by `Add`'s
string concatenation and by `Print`). -/
def Value.toStr (N : NumOps Num) : Value Num → String
  | .Nil => "nil"
  | .Boolean value => if value then "true" else "false"
  | .Number val => N.toStr val
  | .Object val => val.toStr

/-! ## chunk.rs -/

/-- `struct Chunk` from chunk.rs.  `lines: HashMap<usize, usize>` is an
association list whose most recent insert is at the head. -/
structure Chunk (Num : Type) where
  code : List Nat
  lines : List (Nat × Nat)
  constants : List (Value Num)
deriving Repr

/-- `struct ChunkReference` from chunk.rs. -/
structure ChunkReference where
  offset : Nat
  length : Nat
deriving DecidableEq, Repr

/-- `Chunk::new` from chunk.rs. -/
def Chunk.new : Chunk Num := ⟨[], [], []⟩

/-- `Chunk::len` from chunk.rs. -/
def Chunk.len (c : Chunk Num) : Nat := c.code.length

/-- `HashMap::get` on the association-list model. -/
def hmGet (m : List (Nat × Nat)) (k : Nat) : Option Nat :=
  (m.find? (fun p => p.1 == k)).map (·.2)

/-- `Chunk::add_constant` from chunk.rs.  The returned index
`(constants.len() - 1) as u8` after the push equals the pre-push length. -/
def Chunk.add_constant (c : Chunk Num) (value : Value Num) :
    Except String (Nat × Chunk Num) :=
  if c.constants.length ≥ 255 then .error "too many local constants"
  else .ok (c.constants.length, { c with constants := c.constants ++ [value] })

/-- `Chunk::add` from chunk.rs. -/
def Chunk.add (c : Chunk Num) (op : OpCode) (line : Nat) :
    ChunkReference × Chunk Num :=
  let bytes := op.encode
  let offset := c.code.length
  let length := bytes.length
  (⟨offset, length⟩,
   { c with lines := (offset, line) :: c.lines, code := c.code ++ bytes })

/-- The byte-overwrite loop in `Chunk::patch`
(`for (i, b) ... code[offset + i] = *b`). -/
def writeBytes : List Nat → Nat → List Nat → List Nat
  | code, _, [] => code
  | code, off, b :: bs => writeBytes (code.set off b) (off + 1) bs

/-- `Chunk::patch` from chunk.rs.  The `panic!` on a width mismatch is
modelled as `none`. -/
def Chunk.patch (c : Chunk Num) (location : ChunkReference) (op : OpCode) :
    Option (Chunk Num) :=
  let patch_bytes := op.encode
  if patch_bytes.length ≠ location.length then none
  else some { c with code := writeBytes c.code location.offset patch_bytes }

/-- `Chunk::decode` from chunk.rs. -/
def Chunk.decode (c : Chunk Num) (offset : Nat) :
    Except DecodeError (OpCode × Nat) :=
  if offset ≥ c.code.length then .error .EOF
  else
    match OpCode.decode (c.code.drop offset) with
    | .error e => .error e
    | .ok (op, len) => .ok (op, offset + len)

/-- `Chunk::constant` from chunk.rs (`self.constants.len() as u8` is the
length mod 256; the crate never grows the pool past 255). -/
def Chunk.constant (c : Chunk Num) (index : Nat) : Except String (Value Num) :=
  if h : index ≥ c.constants.length % 256 then
    .error s!"invalid constant index {index} of {c.constants.length % 256}"
  else .ok (c.constants.get ⟨index, by omega⟩)

/-- `Chunk::line` from chunk.rs: walk downward from `offset` until a recorded
line is found; at offset 0 fall back to `lines.get(&0).unwrap_or(&0)`. -/
def Chunk.line (c : Chunk Num) : Nat → Nat
  | 0 => (hmGet c.lines 0).getD 0
  | n + 1 =>
    match hmGet c.lines (n + 1) with
    | some line => line
    | none => Chunk.line c n

/-- Repeated `Chunk::add_constant`, one call per list element. -/
def addAll (c : Chunk Num) : List (Value Num) → Except String (Chunk Num)
  | [] => .ok c
  | v :: vs =>
    match c.add_constant v with
    | .error e => .error e
    | .ok (_, c') => addAll c' vs

/-! ## vm.rs -/

/-- `enum RuntimeError` from vm.rs. -/
inductive RuntimeError where
  | ExpectedNumber
  | ExpectedString
  | ExpectedIdentifier
  | UndefinedGlobal (name : String)
  | UndefinedLocal (index : Nat)
  | InvalidAdditionArguments
deriving DecidableEq, Repr

/-- `enum VMError` from vm.rs. -/
inductive VMError where
  | Decode (e : DecodeError)
  | InvalidOpCode (b : Nat)
  | InvalidConstant (index : Nat) (msg : String)
  | StackTooSmall (want : Nat) (got : Nat)
  | Runtime (line : Nat) (e : RuntimeError)
deriving DecidableEq, Repr

/-- `struct VM` from vm.rs.  The stack is in `Vec` order (index 0 = bottom of
the stack, push appends at the end); `globals: HashMap<String, Rc<Value>>` is
an association list whose most recent insert is at the head. -/
structure VMState (Num : Type) where
  chunk : Chunk Num
  ip : Nat
  stack : List (Value Num)
  globals : List (Str × Value Num)
deriving Repr

/-- `HashMap::get` on the globals table. -/
def gGet (m : List (Str × Value Num)) (k : Str) : Option (Value Num) :=
  (m.find? (fun p => p.1 == k)).map (·.2)

/-- `HashMap::contains_key` on the globals table. -/
def gContains (m : List (Str × Value Num)) (k : Str) : Bool :=
  (m.find? (fun p => p.1 == k)).isSome

/-- `HashMap::insert` on the globals table (the new binding shadows any older
one, since `gGet` returns the first match). -/
def gInsert (m : List (Str × Value Num)) (k : Str) (v : Value Num) :
    List (Str × Value Num) :=
  (k, v) :: m

/-- `VM::push` from vm.rs. -/
def vmPush (stack : List (Value Num)) (value : Value Num) : List (Value Num) :=
  stack ++ [value]

/-- `VM::peek` from vm.rs: `stack[len - offset - 1]` guarded by
`offset < len`. -/
def vmPeek (stack : List (Value Num)) (offset : Nat) :
    Except VMError (Value Num) :=
  if h : offset < stack.length then
    .ok (stack.get ⟨stack.length - offset - 1, by omega⟩)
  else .error (.StackTooSmall (offset + 1) stack.length)

/-- `VM::pop` from vm.rs, returning the popped value with the shrunken
stack. -/
def vmPop (stack : List (Value Num)) :
    Except VMError (Value Num × List (Value Num)) :=
  match stack.getLast? with
  | some v => .ok (v, stack.dropLast)
  | none => .error (.StackTooSmall 1 stack.length)

/-- `VM::drop` from vm.rs: drain the top `count` elements. -/
def vmDrop (stack : List (Value Num)) (count : Nat) :
    Except VMError (List (Value Num)) :=
  if count ≤ stack.length then .ok (stack.take (stack.length - count))
  else .error (.StackTooSmall count stack.length)

/-- `VM::as_number` from vm.rs. -/
def vmAsNumber (c : Chunk Num) (ip : Nat) (value : Value Num) :
    Except VMError Num :=
  match value.as_number with
  | .ok n => .ok n
  | .error _ => .error (.Runtime (c.line ip) .ExpectedNumber)

/-- `VM::as_string` from vm.rs. -/
def vmAsString (c : Chunk Num) (ip : Nat) (value : Value Num) :
    Except VMError Str :=
  match value with
  | .Object (.String s) => .ok s
  | _ => .error (.Runtime (c.line ip) .ExpectedString)

/-- `VM::as_identifier` from vm.rs. -/
def vmAsIdentifier (c : Chunk Num) (ip : Nat) (value : Value Num) :
    Except VMError Str :=
  match value with
  | .Object (.String s) => .ok s
  | _ => .error (.Runtime (c.line ip) .ExpectedIdentifier)

/-- Outcome of one iteration of the `loop` in `VM::run`: continue at a new
state, return `Ok(())` (`Return`), return `Err(e)` with the VM left in the
state it had reached, or a Rust panic. -/
inductive StepOutcome (Num : Type) where
  | ok (s : VMState Num)
  | done (s : VMState Num)
  | err (e : VMError) (s : VMState Num)
  | crash
deriving Repr

/-- `self.ip + offset as usize` from `VM::run`'s jump handling: the `i16`
operand is sign-extended to 64-bit `usize` and added with wrapping. -/
def usizeAdd (ip : Nat) (offset : Int) : Nat :=
  (((ip : Int) + offset % (2 ^ 64)) % (2 ^ 64)).toNat

/-- The `run_number_op!` expansion for the binary numeric operators
(`Greater`, `Less`, `Subtract`, `Multiply`, `Divide`): peek `right` at
offset 0 and `left` at offset 1, convert both with `as_number`, then
`drop(2)` and push the result. -/
def runNumberBinOp (s : VMState Num) (nip : Nat)
    (result : Num → Num → Value Num) : StepOutcome Num :=
  match vmPeek s.stack 0 with
  | .error e => .err e s
  | .ok rv =>
    match vmAsNumber s.chunk s.ip rv with
    | .error e => .err e s
    | .ok right =>
      match vmPeek s.stack 1 with
      | .error e => .err e s
      | .ok lv =>
        match vmAsNumber s.chunk s.ip lv with
        | .error e => .err e s
        | .ok left =>
          match vmDrop s.stack 2 with
          | .error e => .err e s
          | .ok stack' =>
            .ok { s with stack := vmPush stack' (result left right),
                         ip := nip }

/-- The `run_number_op!` expansion for the unary `Negate`. -/
def runNumberUnOp (s : VMState Num) (nip : Nat) (result : Num → Value Num) :
    StepOutcome Num :=
  match vmPeek s.stack 0 with
  | .error e => .err e s
  | .ok v =>
    match vmAsNumber s.chunk s.ip v with
    | .error e => .err e s
    | .ok value =>
      match vmDrop s.stack 1 with
      | .error e => .err e s
      | .ok stack' =>
        .ok { s with stack := vmPush stack' (result value), ip := nip }

/-- One iteration of the `loop` in `VM::run` from vm.rs. -/
def step (N : NumOps Num) (s : VMState Num) : StepOutcome Num :=
  match s.chunk.decode s.ip with
  | .error e => .err (.Decode e) s
  | .ok (op, next_ip) =>
    match op with
    | .Constant index =>
      match s.chunk.constant index with
      | .error e => .err (.InvalidConstant index e) s
      | .ok value =>
        .ok { s with stack := vmPush s.stack value, ip := next_ip }
    | .True =>
      .ok { s with stack := vmPush s.stack (.Boolean true), ip := next_ip }
    | .False =>
      .ok { s with stack := vmPush s.stack (.Boolean false), ip := next_ip }
    | .Nil => .ok { s with stack := vmPush s.stack .Nil, ip := next_ip }
    | .Pop =>
      match vmPop s.stack with
      | .error e => .err e s
      | .ok (_, stack') => .ok { s with stack := stack', ip := next_ip }
    | .GetLocal index =>
      match s.stack.get? index with
      | some value =>
        .ok { s with stack := vmPush s.stack value, ip := next_ip }
      | none =>
        .err (.Runtime (s.chunk.line s.ip) (.UndefinedLocal index)) s
    | .SetLocal index =>
      match vmPeek s.stack 0 with
      | .error e => .err e s
      | .ok value =>
        if index < s.stack.length then
          .ok { s with stack := s.stack.set index value, ip := next_ip }
        else .crash
    | .GetGlobal index =>
      match s.chunk.constant index with
      | .error e => .err (.InvalidConstant index e) s
      | .ok cv =>
        match vmAsIdentifier s.chunk s.ip cv with
        | .error e => .err e s
        | .ok ident =>
          match gGet s.globals ident with
          | some value =>
            .ok { s with stack := vmPush s.stack value, ip := next_ip }
          | none =>
            .err (.Runtime (s.chunk.line s.ip) (.UndefinedGlobal ident)) s
    | .DefineGlobal index =>
      match s.chunk.constant index with
      | .error e => .err (.InvalidConstant index e) s
      | .ok cv =>
        match vmAsIdentifier s.chunk s.ip cv with
        | .error e => .err e s
        | .ok ident =>
          match vmPeek s.stack 0 with
          | .error e => .err e s
          | .ok value =>
            match vmDrop s.stack 1 with
            | .error e =>
              .err e { s with globals := gInsert s.globals ident value }
            | .ok stack' =>
              .ok { s with globals := gInsert s.globals ident value,
                           stack := stack', ip := next_ip }
    | .SetGlobal index =>
      match s.chunk.constant index with
      | .error e => .err (.InvalidConstant index e) s
      | .ok cv =>
        match vmAsIdentifier s.chunk s.ip cv with
        | .error e => .err e s
        | .ok ident =>
          match vmPeek s.stack 0 with
          | .error e => .err e s
          | .ok value =>
            if gContains s.globals ident then
              .ok { s with globals := gInsert s.globals ident value,
                           ip := next_ip }
            else
              .err (.Runtime (s.chunk.line s.ip) (.UndefinedGlobal ident)) s
    | .Equal =>
      match vmPop s.stack with
      | .error e => .err e s
      | .ok (right, stack₁) =>
        match vmPop stack₁ with
        | .error e => .err e { s with stack := stack₁ }
        | .ok (left, stack₂) =>
          .ok { s with
                stack := vmPush stack₂ (.Boolean (left.is_equal N right)),
                ip := next_ip }
    | .Greater =>
      runNumberBinOp s next_ip (fun left right => .Boolean (N.lt right left))
    | .Less =>
      runNumberBinOp s next_ip (fun left right => .Boolean (N.lt left right))
    | .Add =>
      match vmPeek s.stack 0 with
      | .error e => .err e s
      | .ok right =>
        match vmPeek s.stack 1 with
        | .error e => .err e s
        | .ok left =>
          let res :=
            match left, right with
            | .Number l, .Number r => Except.ok (Value.Number (N.add l r))
            | _, _ =>
              match vmAsString s.chunk s.ip left with
              | .ok ls => Except.ok (Value.new_string (ls ++ right.toStr N))
              | .error _ =>
                match vmAsString s.chunk s.ip right with
                | .ok rs => Except.ok (Value.new_string (left.toStr N ++ rs))
                | .error _ =>
                  Except.error
                    (VMError.Runtime (s.chunk.line s.ip)
                      .InvalidAdditionArguments)
          match res with
          | .error e => .err e s
          | .ok result =>
            match vmDrop s.stack 2 with
            | .error e => .err e s
            | .ok stack' =>
              .ok { s with stack := vmPush stack' result, ip := next_ip }
    | .Subtract =>
      runNumberBinOp s next_ip (fun left right => .Number (N.sub left right))
    | .Multiply =>
      runNumberBinOp s next_ip (fun left right => .Number (N.mul left right))
    | .Divide =>
      runNumberBinOp s next_ip (fun left right => .Number (N.div left right))
    | .Not =>
      match vmPop s.stack with
      | .error e => .err e s
      | .ok (value, stack') =>
        .ok { s with stack := vmPush stack' (.Boolean (!value.is_truthy)),
                     ip := next_ip }
    | .Negate => runNumberUnOp s next_ip (fun value => .Number (N.neg value))
    | .Print =>
      match vmPop s.stack with
      | .error e => .err e s
      | .ok (_, stack') => .ok { s with stack := stack', ip := next_ip }
    | .Jump offset => .ok { s with ip := usizeAdd s.ip offset }
    | .JumpIfFalse offset =>
      match vmPeek s.stack 0 with
      | .error e => .err e s
      | .ok v =>
        if !v.is_truthy then .ok { s with ip := usizeAdd s.ip offset }
        else .ok { s with ip := next_ip }
    | .Return => .done s
    | .Unknown val => .err (.InvalidOpCode val) s

/-! ## Scanner / parser types as consumed by compiler.rs -/

/-- `Token` from rlox-scanner (the compiler matches `op.token` against the
operator variants; `f64` payloads are `Num`). -/
inductive Token (Num : Type) where
  | LeftParen
  | RightParen
  | LeftBrace
  | RightBrace
  | Comma
  | Dot
  | Minus
  | Plus
  | Semicolon
  | Slash
  | Star
  | Bang
  | BangEqual
  | Equal
  | EqualEqual
  | Greater
  | GreaterEqual
  | Less
  | LessEqual
  | Identifier (s : Str)
  | String (s : Str)
  | Number (n : Num)
  | And
  | Class
  | Else
  | False
  | Fun
  | For
  | If
  | Nil
  | Or
  | Print
  | Return
  | Super
  | This
  | True
  | Var
  | While
  | Comment
  | Whitespace
  | NewLine
  | Eof
deriving DecidableEq, Repr

/-- `struct SourceToken` from rlox-scanner. -/
structure SourceToken (Num : Type) where
  token : Token Num
  lexeme : Str
  line : Nat
deriving DecidableEq, Repr

/-- `enum Expr` as consumed by compiler.rs (`Boolean`, `Number`, `String` and
`Nil` carry their token). -/
inductive Expr (Num : Type) where
  | Assign (name : SourceToken Num) (value : Expr Num)
  | Binary (left : Expr Num) (op : SourceToken Num) (right : Expr Num)
  | Call (callee : Expr Num) (paren : SourceToken Num) (args : List (Expr Num))
  | Logical (left : Expr Num) (op : SourceToken Num) (right : Expr Num)
  | Unary (op : SourceToken Num) (value : Expr Num)
  | Grouping (e : Expr Num)
  | Var (name : SourceToken Num)
  | String (token : SourceToken Num) (value : Str)
  | Number (token : SourceToken Num) (value : Num)
  | Boolean (token : SourceToken Num) (value : Bool)
  | Nil (token : SourceToken Num)
deriving Repr

/-- `enum Stmt` as consumed by compiler.rs.  `Function`'s `Func` payload is
flattened into its fields; `Class`'s payload (matched only as
`Class(_, _)` and never used) is carried opaquely. -/
inductive Stmt (Num : Type) where
  | Block (stmts : List (Stmt Num))
  | Class (name : SourceToken Num) (body : List (SourceToken Num))
  | Expression (e : Expr Num)
  | Function (name : SourceToken Num) (parameters : List (SourceToken Num))
      (body : List (Stmt Num))
  | If (cond : Expr Num) (true_branch : Stmt Num)
      (false_branch : Option (Stmt Num))
  | Print (e : Expr Num)
  | Return (token : SourceToken Num) (value : Option (Expr Num))
  | Var (name : SourceToken Num) (value : Option (Expr Num))
  | While (condition : Expr Num) (body : Stmt Num)
deriving Repr

/-! ## compiler.rs -/

/-- `struct Local` from compiler.rs. -/
structure Local where
  name : Str
  scope_depth : Nat
deriving DecidableEq, Repr

/-- `enum CompilerError` from compiler.rs. -/
inductive CompilerError where
  | TooManyConstants
  | TooManyLocals
  | VariableAlreadyDeclared (name : String)
deriving DecidableEq, Repr

/-- Result of a compiler operation: success, `Err(CompilerError)`, or a Rust
panic / `unimplemented!`. -/
inductive CRes (α : Type) where
  | ok (a : α)
  | err (e : CompilerError)
  | fatal
deriving Repr

/-- `struct Compiler` from compiler.rs (the borrowed `&mut Chunk` plus locals
and scope depth), threaded functionally. -/
structure CompilerSt (Num : Type) where
  chunk : Chunk Num
  locals : List Local
  scope_depth : Nat
deriving Repr

/-- The two closures passed as `JumpOpFactory`
(`Box::new(OpCode::Jump)` / `Box::new(OpCode::JumpIfFalse)`). -/
inductive JumpOpFactory where
  | jump
  | jumpIfFalse
deriving DecidableEq, Repr

/-- Apply a jump factory to an operand. -/
def JumpOpFactory.apply : JumpOpFactory → Int → OpCode
  | .jump, o => .Jump o
  | .jumpIfFalse, o => .JumpIfFalse o

/-- `struct JumpPatchReference` from compiler.rs. -/
structure JumpPatchReference where
  chunk_ref : ChunkReference
  offset : Nat
  op_factory : JumpOpFactory
deriving DecidableEq, Repr

/-- `struct JumpLoopReference` from compiler.rs. -/
structure JumpLoopReference where
  offset : Nat
deriving DecidableEq, Repr

/-- Rust `usize as i16`: truncate to 16 bits and reinterpret signed. -/
def i16OfNat (n : Nat) : Int :=
  if n % 65536 < 32768 then ((n % 65536 : Nat) : Int)
  else ((n % 65536 : Nat) : Int) - 65536

/-- Rust release-mode `i16` negation (`-(-32768)` wraps back to `-32768`). -/
def i16Neg (n : Int) : Int := if n = -32768 then -32768 else -n

/-- `self.chunk.add(op, line)` with the returned reference discarded. -/
def emit (st : CompilerSt Num) (op : OpCode) (line : Nat) : CompilerSt Num :=
  { st with chunk := (st.chunk.add op line).2 }

/-- `Compiler::jump` from compiler.rs: remember the current chunk length and
emit a `Jump(0)` placeholder. -/
def jump (st : CompilerSt Num) (op_factory : JumpOpFactory) :
    JumpPatchReference × CompilerSt Num :=
  let offset := st.chunk.len
  let (chunk_ref, ch) := st.chunk.add (.Jump 0) 0
  (⟨chunk_ref, offset, op_factory⟩, { st with chunk := ch })

/-- `Compiler::resolve_jump` from compiler.rs: patch the placeholder with the
factory op carrying `(chunk.len() - jump.offset) as i16`.  A panic inside
`Chunk::patch` becomes `fatal` (it never fires here: both widths are 3). -/
def resolve_jump (st : CompilerSt Num) (j : JumpPatchReference) :
    CRes (CompilerSt Num) :=
  let offset := st.chunk.len - j.offset
  let op := j.op_factory.apply (i16OfNat offset)
  match st.chunk.patch j.chunk_ref op with
  | some ch => .ok { st with chunk := ch }
  | none => .fatal

/-- `Compiler::loop_start` from compiler.rs. -/
def loop_start (st : CompilerSt Num) : JumpLoopReference := ⟨st.chunk.len⟩

/-- `Compiler::jump_loop` from compiler.rs: emit a backward jump with operand
`-((chunk.len() - jump.offset) as i16)`. -/
def jump_loop (st : CompilerSt Num) (j : JumpLoopReference)
    (op_factory : JumpOpFactory) : CompilerSt Num :=
  let offset := i16Neg (i16OfNat (st.chunk.len - j.offset))
  { st with chunk := (st.chunk.add (op_factory.apply offset) 0).2 }

/-- `Compiler::resolve_local` from compiler.rs:
`locals.iter().enumerate().rev().find(|(_, l)| l.name == name)` mapped to
`i as u8`. -/
def resolve_local (locals : List Local) (name : Str) : Option Nat :=
  ((locals.enum.reverse).find? (fun p => p.2.name == name)).map
    (fun p => p.1 % 256)

/-- `Compiler::begin_scope` from compiler.rs (`panic!` at `u8::MAX` becomes
`fatal`). -/
def begin_scope (st : CompilerSt Num) : CRes (CompilerSt Num) :=
  if st.scope_depth = 255 then .fatal
  else .ok { st with scope_depth := st.scope_depth + 1 }

/-- The while-loop in `Compiler::end_scope`: while the newest local is deeper
than `scope_depth`, emit one `Pop` and remove it. -/
def popLocals (ch : Chunk Num) (locals : List Local) (scope_depth : Nat) :
    Chunk Num × List Local :=
  match h : locals.getLast? with
  | some l =>
    if scope_depth < l.scope_depth then
      popLocals (ch.add .Pop 0).2 locals.dropLast scope_depth
    else (ch, locals)
  | none => (ch, locals)
termination_by locals.length
decreasing_by
  have hne : locals ≠ [] := by
    intro hnil
    rw [hnil] at h
    simp at h
  have hpos : 0 < locals.length := List.length_pos.mpr hne
  simp only [List.length_dropLast]
  omega

/-- `Compiler::end_scope` from compiler.rs (`panic!` at depth 0 becomes
`fatal`). -/
def end_scope (st : CompilerSt Num) : CRes (CompilerSt Num) :=
  if st.scope_depth = 0 then .fatal
  else
    let d := st.scope_depth - 1
    let p := popLocals st.chunk st.locals d
    .ok { chunk := p.1, locals := p.2, scope_depth := d }

/-- `Compiler::add_string` from compiler.rs. -/
def add_string (st : CompilerSt Num) (s : Str) :
    CRes (Nat × CompilerSt Num) :=
  match st.chunk.add_constant (Value.Object (.String s)) with
  | .ok (constant, ch) => .ok (constant, { st with chunk := ch })
  | .error _ => .err .TooManyConstants

/-- `Compiler::compile_expr` from compiler.rs. -/
def compile_expr (st : CompilerSt Num) : Expr Num → CRes (CompilerSt Num)
  | .Assign name value =>
    match compile_expr st value with
    | .err e => .err e
    | .fatal => .fatal
    | .ok st₁ =>
      match resolve_local st₁.locals name.lexeme with
      | some loc => .ok (emit st₁ (.SetLocal loc) name.line)
      | none =>
        match add_string st₁ name.lexeme with
        | .err e => .err e
        | .fatal => .fatal
        | .ok (constant, st₂) => .ok (emit st₂ (.SetGlobal constant) name.line)
  | .Binary left op right =>
    match compile_expr st left with
    | .err e => .err e
    | .fatal => .fatal
    | .ok st₁ =>
      match compile_expr st₁ right with
      | .err e => .err e
      | .fatal => .fatal
      | .ok st₂ =>
        match op.token with
        | .BangEqual => .ok (emit (emit st₂ .Equal op.line) .Not op.line)
        | .EqualEqual => .ok (emit st₂ .Equal op.line)
        | .Greater => .ok (emit st₂ .Greater op.line)
        | .GreaterEqual => .ok (emit (emit st₂ .Less op.line) .Not op.line)
        | .Less => .ok (emit st₂ .Less op.line)
        | .LessEqual => .ok (emit (emit st₂ .Greater op.line) .Not op.line)
        | .Plus => .ok (emit st₂ .Add op.line)
        | .Minus => .ok (emit st₂ .Subtract op.line)
        | .Star => .ok (emit st₂ .Multiply op.line)
        | .Slash => .ok (emit st₂ .Divide op.line)
        | _ => .fatal
  | .Call _ _ _ => .fatal
  | .Logical left op right =>
    match compile_expr st left with
    | .err e => .err e
    | .fatal => .fatal
    | .ok st₁ =>
      match op.token with
      | .Or =>
        let p₂ := jump st₁ .jumpIfFalse
        let p₃ := jump p₂.2 .jump
        match resolve_jump p₃.2 p₂.1 with
        | .err e => .err e
        | .fatal => .fatal
        | .ok st₄ =>
          match compile_expr (emit st₄ .Pop op.line) right with
          | .err e => .err e
          | .fatal => .fatal
          | .ok st₆ => resolve_jump st₆ p₃.1
      | .And =>
        let p₂ := jump st₁ .jumpIfFalse
        match compile_expr (emit p₂.2 .Pop op.line) right with
        | .err e => .err e
        | .fatal => .fatal
        | .ok st₄ => resolve_jump st₄ p₂.1
      | _ => .fatal
  | .Unary op value =>
    match compile_expr st value with
    | .err e => .err e
    | .fatal => .fatal
    | .ok st₁ =>
      match op.token with
      | .Bang => .ok (emit st₁ .Not op.line)
      | .Minus => .ok (emit st₁ .Negate op.line)
      | _ => .fatal
  | .Grouping e => compile_expr st e
  | .Var name =>
    match resolve_local st.locals name.lexeme with
    | some loc => .ok (emit st (.GetLocal loc) name.line)
    | none =>
      match add_string st name.lexeme with
      | .err e => .err e
      | .fatal => .fatal
      | .ok (constant, st₁) => .ok (emit st₁ (.GetGlobal constant) name.line)
  | .String token value =>
    match add_string st value with
    | .err e => .err e
    | .fatal => .fatal
    | .ok (constant, st₁) => .ok (emit st₁ (.Constant constant) token.line)
  | .Number token value =>
    match st.chunk.add_constant (.Number value) with
    | .error _ => .err .TooManyConstants
    | .ok (constant, ch) =>
      .ok (emit { st with chunk := ch } (.Constant constant) token.line)
  | .Boolean token value =>
    .ok (emit st (if value then .True else .False) token.line)
  | .Nil token => .ok (emit st .Nil token.line)

mutual

/-- `Compiler::compile_stmt` from compiler.rs (`unimplemented!` arms are
`fatal`). -/
def compile_stmt (st : CompilerSt Num) : Stmt Num → CRes (CompilerSt Num)
  | .Block stmts =>
    match begin_scope st with
    | .err e => .err e
    | .fatal => .fatal
    | .ok st₁ =>
      match compile_stmt_list st₁ stmts with
      | .err e => .err e
      | .fatal => .fatal
      | .ok st₂ => end_scope st₂
  | .Class _ _ => .fatal
  | .Expression e =>
    match compile_expr st e with
    | .err e => .err e
    | .fatal => .fatal
    | .ok st₁ => .ok (emit st₁ .Pop 0)
  | .Function _ _ _ => .fatal
  | .If cond true_branch false_branch =>
    -- the source matches on `false_branch` only after compiling the true
    -- branch; matching on it first is observationally identical (the match
    -- has no effects) and gives each `Option` case a definitional unfolding
    match false_branch with
    | some fb =>
      match compile_expr st cond with
      | .err e => .err e
      | .fatal => .fatal
      | .ok st₁ =>
        let pf := jump st₁ .jumpIfFalse
        match compile_stmt (emit pf.2 .Pop 0) true_branch with
        | .err e => .err e
        | .fatal => .fatal
        | .ok st₄ =>
          let pt := jump st₄ .jump
          match resolve_jump pt.2 pf.1 with
          | .err e => .err e
          | .fatal => .fatal
          | .ok st₆ =>
            match compile_stmt (emit st₆ .Pop 0) fb with
            | .err e => .err e
            | .fatal => .fatal
            | .ok st₈ => resolve_jump st₈ pt.1
    | none =>
      match compile_expr st cond with
      | .err e => .err e
      | .fatal => .fatal
      | .ok st₁ =>
        let pf := jump st₁ .jumpIfFalse
        match compile_stmt (emit pf.2 .Pop 0) true_branch with
        | .err e => .err e
        | .fatal => .fatal
        | .ok st₄ => resolve_jump st₄ pf.1
  | .Print e =>
    match compile_expr st e with
    | .err e => .err e
    | .fatal => .fatal
    | .ok st₁ => .ok (emit st₁ .Print 0)
  | .Return _ _ => .fatal
  | .Var name value =>
    match (match value with
           | some e => compile_expr st e
           | none => .ok (emit st .Nil name.line)) with
    | .err e => .err e
    | .fatal => .fatal
    | .ok st₁ =>
      if 0 < st₁.scope_depth then
        if st₁.locals.length = 255 then .err .TooManyLocals
        else if st₁.locals.any (fun x =>
            x.scope_depth == st₁.scope_depth && x.name == name.lexeme) then
          .err (.VariableAlreadyDeclared name.lexeme)
        else
          .ok { st₁ with
                locals := st₁.locals ++ [⟨name.lexeme, st₁.scope_depth⟩] }
      else
        match add_string st₁ name.lexeme with
        | .err e => .err e
        | .fatal => .fatal
        | .ok (constant, st₂) => .ok (emit st₂ (.DefineGlobal constant) 0)
  | .While condition body =>
    let ls := loop_start st
    match compile_expr st condition with
    | .err e => .err e
    | .fatal => .fatal
    | .ok st₁ =>
      let pe := jump st₁ .jumpIfFalse
      match compile_stmt (emit pe.2 .Pop 0) body with
      | .err e => .err e
      | .fatal => .fatal
      | .ok st₄ =>
        match resolve_jump (jump_loop st₄ ls .jump) pe.1 with
        | .err e => .err e
        | .fatal => .fatal
        | .ok st₆ => .ok (emit st₆ .Pop 0)

/-- The statement loop inside `Stmt::Block` compilation (and
`Compiler::compile`). -/
def compile_stmt_list (st : CompilerSt Num) :
    List (Stmt Num) → CRes (CompilerSt Num)
  | [] => .ok st
  | s :: rest =>
    match compile_stmt st s with
    | .err e => .err e
    | .fatal => .fatal
    | .ok st₁ => compile_stmt_list st₁ rest

end

/-- `Compiler::compile` from compiler.rs. -/
def Compiler.compile (st : CompilerSt Num) (statements : List (Stmt Num)) :
    CRes (CompilerSt Num) :=
  compile_stmt_list st statements

/-- Compiler-state well-formedness: every tracked local was declared at a
scope depth no deeper than the current one. -/
def WfLocals (st : CompilerSt Num) : Prop :=
  ∀ l ∈ st.locals, l.scope_depth ≤ st.scope_depth

/-- Scope accounting between two compiler states: the scope depth is
unchanged and the locals list has only grown, by locals declared at the
current (positive) depth. -/
def ScopeOK (a b : CompilerSt Num) : Prop :=
  b.scope_depth = a.scope_depth ∧
  ∃ extra, b.locals = a.locals ++ extra ∧
    ∀ l ∈ extra, l.scope_depth = a.scope_depth ∧ 0 < a.scope_depth

/-- A concrete `NumOps` instantiation (on `Int`) used by the witnesses. -/
def intOps : NumOps Int where
  add := (· + ·)
  sub := (· - ·)
  mul := (· * ·)
  div := (· / ·)
  neg := (- ·)
  lt := fun a b => decide (a < b)
  beq := fun a b => a == b
  toStr := toString

/-! ## Theorems -/

theorem i16_roundtrip (n : Int) (h0 : -32768 ≤ n) (h1 : n < 32768) :
    i16FromBeBytes ((n % 65536).toNat / 256) ((n % 65536).toNat % 256) = n := by
  simp only [i16FromBeBytes]
  omega

/-- Decoding a single byte that is none of the defined opcode values yields
`Unknown`. -/
theorem decode_undefined_byte (v : Nat) (h : 23 ≤ v) :
    OpCode.decode [v] = .ok (.Unknown v, 1) := by
  have e0 : v ≠ 0 := by omega
  have e1 : v ≠ 1 := by omega
  have e2 : v ≠ 2 := by omega
  have e3 : v ≠ 3 := by omega
  have e4 : v ≠ 4 := by omega
  have e5 : v ≠ 5 := by omega
  have e6 : v ≠ 6 := by omega
  have e7 : v ≠ 7 := by omega
  have e8 : v ≠ 8 := by omega
  have e9 : v ≠ 9 := by omega
  have e10 : v ≠ 10 := by omega
  have e11 : v ≠ 11 := by omega
  have e12 : v ≠ 12 := by omega
  have e13 : v ≠ 13 := by omega
  have e14 : v ≠ 14 := by omega
  have e15 : v ≠ 15 := by omega
  have e16 : v ≠ 16 := by omega
  have e17 : v ≠ 17 := by omega
  have e18 : v ≠ 18 := by omega
  have e19 : v ≠ 19 := by omega
  have e20 : v ≠ 20 := by omega
  have e21 : v ≠ 21 := by omega
  have e22 : v ≠ 22 := by omega
  simp only [OpCode.decode, OP_CONSTANT, OP_TRUE, OP_FALSE, OP_NIL, OP_POP,
    OP_GET_LOCAL, OP_SET_LOCAL, OP_GET_GLOBAL, OP_DEFINE_GLOBAL, OP_SET_GLOBAL,
    OP_EQUAL, OP_GREATER, OP_LESS, OP_ADD, OP_SUBTRACT, OP_MULTIPLY, OP_DIVIDE,
    OP_NOT, OP_NEGATE, OP_PRINT, OP_JUMP, OP_JUMP_IF_FALSE, OP_RETURN]
  norm_num
  simp [if_neg e0, if_neg e1, if_neg e2, if_neg e3, if_neg e4, if_neg e5,
    if_neg e6, if_neg e7, if_neg e8, if_neg e9, if_neg e10, if_neg e11,
    if_neg e12, if_neg e13, if_neg e14, if_neg e15, if_neg e16, if_neg e17,
    if_neg e18, if_neg e19, if_neg e20, if_neg e21, if_neg e22]

/-- C2 (counterexample): the round-trip fails for `Unknown` bytes that collide
with defined opcode values.  `encode(Unknown(1)) = [1]` decodes as `True`,
not as `Unknown(1)`. -/
theorem c2_unknown_byte_counterexample :
    OpCode.decode (OpCode.encode (OpCode.Unknown 1)) = .ok (OpCode.True, 1) ∧
    (OpCode.True, 1) ≠ ((OpCode.Unknown 1 : OpCode), 1) := by
  exact ⟨rfl, by decide⟩

/-- C2 (amended): for every OpCode whose payloads fit the Rust payload types
and whose `Unknown` byte is not a defined opcode value (`0..=22`),
`decode(encode(op))` returns exactly `(op, len)` where `len = op.byte_length()`.
For `Unknown` bytes `0..=22` the round-trip fails (see the counterexample). -/
theorem c2_decode_encode_roundtrip (op : OpCode) (h : op.wfB = true) :
    OpCode.decode (OpCode.encode op) = .ok (op, (OpCode.encode op).length) ∧
    (OpCode.encode op).length = op.byte_length := by
  cases op with
  | Jump o =>
      simp only [OpCode.wfB, Bool.and_eq_true, decide_eq_true_eq] at h
      refine ⟨?_, rfl⟩
      simp only [OpCode.encode, i16ToBeBytes, OpCode.decode]
      norm_num [OP_JUMP, OP_PRINT, OP_CONSTANT, OP_TRUE, OP_FALSE, OP_NIL,
        OP_POP, OP_GET_LOCAL, OP_SET_LOCAL, OP_GET_GLOBAL, OP_DEFINE_GLOBAL,
        OP_SET_GLOBAL, OP_EQUAL, OP_GREATER, OP_LESS, OP_ADD, OP_SUBTRACT,
        OP_MULTIPLY, OP_DIVIDE, OP_NOT, OP_NEGATE, jumpOp]
      exact i16_roundtrip o h.1 h.2
  | JumpIfFalse o =>
      simp only [OpCode.wfB, Bool.and_eq_true, decide_eq_true_eq] at h
      refine ⟨?_, rfl⟩
      simp only [OpCode.encode, i16ToBeBytes, OpCode.decode]
      norm_num [OP_JUMP_IF_FALSE, OP_JUMP, OP_PRINT, OP_CONSTANT, OP_TRUE,
        OP_FALSE, OP_NIL, OP_POP, OP_GET_LOCAL, OP_SET_LOCAL, OP_GET_GLOBAL,
        OP_DEFINE_GLOBAL, OP_SET_GLOBAL, OP_EQUAL, OP_GREATER, OP_LESS, OP_ADD,
        OP_SUBTRACT, OP_MULTIPLY, OP_DIVIDE, OP_NOT, OP_NEGATE, jumpOp]
      exact i16_roundtrip o h.1 h.2
  | Unknown v =>
      simp only [OpCode.wfB, Bool.and_eq_true, decide_eq_true_eq] at h
      refine ⟨?_, rfl⟩
      simp only [OpCode.encode]
      rw [decode_undefined_byte v h.1]
      rfl
  | _ => exact ⟨rfl, rfl⟩

/-- C2 (witness): the amended round-trip at concrete inputs. -/
theorem c2_decode_encode_roundtrip_witness :
    OpCode.decode (OpCode.encode (OpCode.Jump (-260))) =
      .ok (OpCode.Jump (-260), (OpCode.encode (OpCode.Jump (-260))).length) ∧
    (OpCode.encode (OpCode.Jump (-260))).length =
      (OpCode.Jump (-260)).byte_length :=
  c2_decode_encode_roundtrip (OpCode.Jump (-260)) (by decide)

theorem addAll_ok (vs : List (Value Num)) :
    ∀ c : Chunk Num, c.constants.length + vs.length ≤ 255 →
      ∃ c', addAll c vs = .ok c' ∧ c'.constants = c.constants ++ vs ∧
        c'.code = c.code ∧ c'.lines = c.lines := by
  induction vs with
  | nil => intro c _; exact ⟨c, rfl, by simp, rfl, rfl⟩
  | cons v vs ih =>
      intro c hlen
      have hlt : ¬ c.constants.length ≥ 255 := by simp at hlen ⊢; omega
      obtain ⟨c', h1, h2, h3, h4⟩ :=
        ih { c with constants := c.constants ++ [v] } (by simp at hlen ⊢; omega)
      refine ⟨c', ?_, by simp [h2], h3, h4⟩
      simp [addAll, Chunk.add_constant, hlt, h1]

theorem set_append_length (pre : List Nat) (b x : Nat) (suf : List Nat) :
    (pre ++ x :: suf).set pre.length b = pre ++ b :: suf := by
  induction pre with
  | nil => rfl
  | cons a t ih => simp [List.set, ih]

theorem writeBytes_append (bytes : List Nat) :
    ∀ (pre mid suf : List Nat), mid.length = bytes.length →
      writeBytes (pre ++ mid ++ suf) pre.length bytes = pre ++ bytes ++ suf := by
  induction bytes with
  | nil =>
      intro pre mid suf h
      have : mid = [] := List.length_eq_zero.mp h
      subst this
      simp [writeBytes]
  | cons b bs ih =>
      intro pre mid suf h
      match mid, h with
      | m :: ms, h =>
        have step : (pre ++ (m :: ms) ++ suf).set pre.length b =
            (pre ++ [b]) ++ ms ++ suf := by
          simpa using set_append_length pre b m (ms ++ suf)
        have tail := ih (pre ++ [b]) ms suf (by simpa using Nat.succ_injective h)
        calc writeBytes (pre ++ (m :: ms) ++ suf) pre.length (b :: bs)
            = writeBytes ((pre ++ [b]) ++ ms ++ suf) (pre.length + 1) bs := by
              rw [writeBytes, step]
          _ = (pre ++ [b]) ++ bs ++ suf := by
              have : (pre ++ [b]).length = pre.length + 1 := by simp
              rw [← this, tail]
          _ = pre ++ (b :: bs) ++ suf := by simp

/-- C7: starting from an empty chunk, 255 `add_constant` calls all succeed,
each call returns the pre-push length as its index and that index retrieves
exactly the pushed value; a further (256th) call fails; and `constant(index)`
with an index at or past the pool's length fails rather than reading out of
bounds. -/
theorem c7_constant_pool_bound :
    (∀ (c : Chunk Num) (v : Value Num), c.constants.length < 255 →
      Chunk.add_constant c v =
        .ok (c.constants.length, { c with constants := c.constants ++ [v] }) ∧
      Chunk.constant { c with constants := c.constants ++ [v] }
        c.constants.length = .ok v) ∧
    (∀ vs : List (Value Num), vs.length = 255 →
      ∃ c', addAll Chunk.new vs = .ok c' ∧ c'.constants = vs ∧
        (∀ i (hi : i < vs.length), Chunk.constant c' i = .ok (vs.get ⟨i, hi⟩)) ∧
        ∀ w : Value Num,
          Chunk.add_constant c' w = .error "too many local constants") ∧
    (∀ (c : Chunk Num) (index : Nat), c.constants.length ≤ 255 →
      c.constants.length ≤ index →
      Chunk.constant c index =
        .error s!"invalid constant index {index} of {c.constants.length % 256}") := by
  refine ⟨?_, ?_, ?_⟩
  · intro c v hlt
    have hno : ¬ c.constants.length ≥ 255 := by omega
    have hmod : (c.constants.length + 1) % 256 = c.constants.length + 1 := by omega
    constructor
    · simp [Chunk.add_constant, hno]
    · have hidx : ¬ c.constants.length ≥ (c.constants.length + 1) % 256 := by omega
      simp only [Chunk.constant, List.length_append, List.length_cons,
        List.length_nil]
      rw [dif_neg (by simpa using hidx)]
      simp
  · intro vs hlen
    obtain ⟨c', h1, h2, _, _⟩ := addAll_ok vs Chunk.new (by simp [Chunk.new, hlen])
    have hconst : c'.constants = vs := by simpa [Chunk.new] using h2
    refine ⟨c', h1, hconst, ?_, ?_⟩
    · intro i hi
      have hmod : c'.constants.length % 256 = 255 := by
        simp [hconst, hlen]
      have hno : ¬ i ≥ c'.constants.length % 256 := by
        rw [hmod]; omega
      simp only [Chunk.constant]
      rw [dif_neg hno]
      congr 1
      apply List.get_of_eq hconst
    · intro w
      have : c'.constants.length ≥ 255 := by simp [hconst, hlen]
      simp [Chunk.add_constant, this]
  · intro c index h255 hidx
    have hmod : c.constants.length % 256 = c.constants.length := by omega
    have : index ≥ c.constants.length % 256 := by omega
    simp [Chunk.constant, this]

/-- C7 (witness): the first `add_constant` on an empty chunk succeeds at
index 0, retrieval works, and an over-long pool rejects lookups. -/
theorem c7_constant_pool_bound_witness :
    Chunk.add_constant (Chunk.new : Chunk Int) Value.Nil =
      .ok (0, (⟨[], [], [Value.Nil]⟩ : Chunk Int)) ∧
    Chunk.constant (⟨[], [], [Value.Nil]⟩ : Chunk Int) 0 =
      .ok Value.Nil ∧
    Chunk.constant (Chunk.new : Chunk Int) 0 =
      .error "invalid constant index 0 of 0" := by
  have h1 := (@c7_constant_pool_bound Int).1 Chunk.new Value.Nil
    (by simp [Chunk.new])
  have h3 := (@c7_constant_pool_bound Int).2.2 Chunk.new 0
    (by simp [Chunk.new]) (by simp [Chunk.new])
  exact ⟨h1.1, h1.2, h3⟩

/-- C8: for a `ChunkReference` returned by `Chunk::add` (with arbitrary bytes
appended afterwards), `Chunk::patch` panics exactly when the replacement's
encoded width differs from the recorded width, and otherwise succeeds,
overwriting exactly the referenced bytes. -/
theorem c8_patch_width (c : Chunk Num) (op : OpCode) (line : Nat)
    (op' : OpCode) (extra : List Nat) (c₂ : Chunk Num)
    (hcode : c₂.code = ((Chunk.add c op line).2).code ++ extra) :
    (Chunk.patch c₂ (Chunk.add c op line).1 op' = none ↔
      op'.encode.length ≠ op.encode.length) ∧
    (op'.encode.length = op.encode.length →
      Chunk.patch c₂ (Chunk.add c op line).1 op' =
        some { c₂ with code := c.code ++ op'.encode ++ extra }) := by
  have hr : (Chunk.add c op line).1 = ⟨c.code.length, op.encode.length⟩ := rfl
  constructor
  · by_cases h : op'.encode.length = op.encode.length
    · simp [Chunk.patch, hr, h]
    · simp [Chunk.patch, hr, h]
  · intro h
    have hc2 : c₂.code = c.code ++ op.encode ++ extra := by
      simpa [Chunk.add] using hcode
    have hw : writeBytes c₂.code c.code.length op'.encode =
        c.code ++ op'.encode ++ extra := by
      rw [hc2]
      exact writeBytes_append op'.encode c.code op.encode extra h.symm
    simp [Chunk.patch, hr, h, hw]

/-- C8 (witness): patching a `Jump` placeholder with a `JumpIfFalse` (same
width) succeeds; patching it with `Pop` (different width) panics. -/
theorem c8_patch_width_witness :
    (Chunk.patch (Chunk.add (Chunk.new : Chunk Int) (.Jump 0) 0).2
        (Chunk.add (Chunk.new : Chunk Int) (.Jump 0) 0).1 (.JumpIfFalse 5) =
      some { (Chunk.add (Chunk.new : Chunk Int) (.Jump 0) 0).2 with
              code := ([] : List Nat) ++ (OpCode.JumpIfFalse 5).encode ++ [] }) ∧
    (Chunk.patch (Chunk.add (Chunk.new : Chunk Int) (.Jump 0) 0).2
        (Chunk.add (Chunk.new : Chunk Int) (.Jump 0) 0).1 .Pop = none) := by
  constructor
  · exact (c8_patch_width Chunk.new (.Jump 0) 0 (.JumpIfFalse 5) []
      (Chunk.add Chunk.new (.Jump 0) 0).2 (by simp)).2 (by decide)
  · exact (c8_patch_width Chunk.new (.Jump 0) 0 .Pop []
      (Chunk.add Chunk.new (.Jump 0) 0).2 (by simp)).1.mpr (by decide)

/-- C9: `line(offset)` returns the line recorded at the greatest recorded
offset that is at most `offset`; when no line is recorded at or before
`offset` (in particular on an empty chunk) it returns 0. -/
theorem c9_line_lookup (c : Chunk Num) (offset : Nat) :
    (∀ k l, k ≤ offset → hmGet c.lines k = some l →
        (∀ j, k < j → j ≤ offset → hmGet c.lines j = none) →
        c.line offset = l) ∧
    ((∀ j, j ≤ offset → hmGet c.lines j = none) → c.line offset = 0) := by
  induction offset with
  | zero =>
      constructor
      · intro k l hk hsome _
        interval_cases k
        simp [Chunk.line, hsome]
      · intro hall
        simp [Chunk.line, hall 0 (le_refl 0)]
  | succ n ih =>
      constructor
      · intro k l hk hsome hnone
        rcases Nat.lt_or_ge k (n + 1) with hlt | hge
        · have hn1 : hmGet c.lines (n + 1) = none :=
            hnone (n + 1) hlt (le_refl _)
          have hrec := ih.1 k l (by omega) hsome
            (fun j h1 h2 => hnone j h1 (by omega))
          simp [Chunk.line, hn1, hrec]
        · have hk1 : k = n + 1 := by omega
          subst hk1
          simp [Chunk.line, hsome]
      · intro hall
        have hn1 : hmGet c.lines (n + 1) = none := hall _ (le_refl _)
        simp [Chunk.line, hn1, ih.2 (fun j hj => hall j (by omega))]

/-- C9 (witness): on a chunk whose line map records only offset 2 → line 7,
`line 5` returns 7, and the empty chunk reports line 0. -/
theorem c9_line_lookup_witness :
    Chunk.line (⟨[], [(2, 7)], []⟩ : Chunk Int) 5 = 7 ∧
    Chunk.line (Chunk.new : Chunk Int) 0 = 0 := by
  constructor
  · exact (c9_line_lookup _ 5).1 2 7 (by omega) rfl
      (by intro j h1 h2; interval_cases j <;> rfl)
  · exact (c9_line_lookup Chunk.new 0).2 (by intro j hj; interval_cases j <;> rfl)

theorem JumpOpFactory_apply_encode_length (f : JumpOpFactory) (o : Int) :
    ((f.apply o).encode).length = 3 := by
  cases f <;> rfl

theorem usizeAdd_forward (p L : Nat) (hpl : p ≤ L) (h : L - p < 32768)
    (hL : L < 2 ^ 64) : usizeAdd p (i16OfNat (L - p)) = L := by
  have h1 : (L - p) % 65536 = L - p := Nat.mod_eq_of_lt (by omega)
  simp only [usizeAdd, i16OfNat, h1, if_pos h]
  have h2 : (2 : Int) ^ 64 = 18446744073709551616 := by norm_num
  rw [h2]
  omega

theorem usizeAdd_backward (s₀ L : Nat) (hsl : s₀ ≤ L) (h : L - s₀ ≤ 32767)
    (hL : L < 2 ^ 64) : usizeAdd L (i16Neg (i16OfNat (L - s₀))) = s₀ := by
  have h1 : (L - s₀) % 65536 = L - s₀ := Nat.mod_eq_of_lt (by omega)
  have h2 : i16OfNat (L - s₀) = ((L - s₀ : Nat) : Int) := by
    simp only [i16OfNat, h1]
    rw [if_pos (by omega)]
  have h3 : i16Neg ((L - s₀ : Nat) : Int) = -((L - s₀ : Nat) : Int) := by
    simp only [i16Neg]
    rw [if_neg (by omega)]
  rw [h2, h3]
  simp only [usizeAdd]
  have h4 : (2 : Int) ^ 64 = 18446744073709551616 := by norm_num
  rw [h4]
  omega

/-- C1 (counterexample): jump operands are measured from the start of the jump
instruction, not from the byte after it.  Compile a `Jump` placeholder at
offset 0, emit one `Pop`, and back-patch: the compiler writes operand 4
(= patch-time length − jump offset) and the VM taking that jump from ip 0
lands at 4, not at (0 + 3) + 4 = 7 as the claim would require. -/
theorem c1_jump_displacement_counterexample :
    resolve_jump
        (emit (jump (⟨Chunk.new, [], 0⟩ : CompilerSt Int) .jump).2 .Pop 0)
        (jump (⟨Chunk.new, [], 0⟩ : CompilerSt Int) .jump).1 =
      .ok ⟨⟨[20, 0, 4, 4], [(3, 0), (0, 0)], []⟩, [], 0⟩ ∧
    step intOps ⟨⟨[20, 0, 4, 4], [(3, 0), (0, 0)], []⟩, 0, [], []⟩ =
      .ok ⟨⟨[20, 0, 4, 4], [(3, 0), (0, 0)], []⟩, 4, [], []⟩ ∧
    (4 : Nat) ≠ (0 + 3) + 4 :=
  ⟨rfl, rfl, by omega⟩

/-- C1 (amended): the 16-bit signed jump operand is a displacement measured
relative to the byte position of the jump instruction itself (its opcode
byte): (a) the VM taking a `Jump` sets the next instruction pointer to
`jump offset + operand` (wrapping 64-bit add); (b) likewise for a taken
`JumpIfFalse`; (c) `resolve_jump` writes operand `len − jump.offset`, so a
taken patched jump lands exactly at the chunk position current at patch
time; (d) `jump_loop` writes the negated distance to the loop start, so the
taken backward jump lands at `loop_start`. -/
theorem c1_jump_displacement (N : NumOps Num) :
    (∀ (s : VMState Num) (off : Int) (nip : Nat),
       s.chunk.decode s.ip = .ok (.Jump off, nip) →
       step N s = .ok { s with ip := usizeAdd s.ip off }) ∧
    (∀ (s : VMState Num) (off : Int) (nip : Nat) (v : Value Num),
       s.chunk.decode s.ip = .ok (.JumpIfFalse off, nip) →
       vmPeek s.stack 0 = .ok v → v.is_truthy = false →
       step N s = .ok { s with ip := usizeAdd s.ip off }) ∧
    (∀ (st₀ : CompilerSt Num) (f : JumpOpFactory) (extraCode : List Nat)
       (st₁ : CompilerSt Num),
       st₁.chunk.code = (jump st₀ f).2.chunk.code ++ extraCode →
       ∃ st₂, resolve_jump st₁ (jump st₀ f).1 = .ok st₂ ∧
         st₂.chunk.code = st₀.chunk.code ++
           (f.apply (i16OfNat (st₁.chunk.len - st₀.chunk.len))).encode ++
             extraCode ∧
         st₂.locals = st₁.locals ∧ st₂.scope_depth = st₁.scope_depth ∧
         (st₁.chunk.len - st₀.chunk.len < 32768 → st₁.chunk.len < 2 ^ 64 →
           usizeAdd st₀.chunk.len
               (i16OfNat (st₁.chunk.len - st₀.chunk.len)) =
             st₁.chunk.len)) ∧
    (∀ (st : CompilerSt Num) (ls : JumpLoopReference) (f : JumpOpFactory),
       jump_loop st ls f =
         emit st (f.apply (i16Neg (i16OfNat (st.chunk.len - ls.offset)))) 0 ∧
       (ls.offset ≤ st.chunk.len → st.chunk.len - ls.offset ≤ 32767 →
         st.chunk.len < 2 ^ 64 →
         usizeAdd st.chunk.len
             (i16Neg (i16OfNat (st.chunk.len - ls.offset))) =
           ls.offset)) := by
  refine ⟨?_, ?_, ?_, ?_⟩
  · intro s off nip h
    simp [step, h]
  · intro s off nip v h hpeek hfalse
    simp [step, h, hpeek, hfalse]
  · intro st₀ f extraCode st₁ hcode
    have hjc : (jump st₀ f).2.chunk.code = st₀.chunk.code ++ [20, 0, 0] := rfl
    have href : (jump st₀ f).1 =
        ⟨⟨st₀.chunk.code.length, 3⟩, st₀.chunk.len, f⟩ := rfl
    have hlen3 := JumpOpFactory_apply_encode_length f
      (i16OfNat (st₁.chunk.len - st₀.chunk.len))
    have hwrite : writeBytes st₁.chunk.code st₀.chunk.code.length
        ((f.apply (i16OfNat (st₁.chunk.len - st₀.chunk.len))).encode) =
        st₀.chunk.code ++
          (f.apply (i16OfNat (st₁.chunk.len - st₀.chunk.len))).encode ++
            extraCode := by
      rw [hcode, hjc]
      exact writeBytes_append
        ((f.apply (i16OfNat (st₁.chunk.len - st₀.chunk.len))).encode)
        st₀.chunk.code [20, 0, 0] extraCode (by simp [hlen3])
    refine ⟨{ st₁ with chunk := { st₁.chunk with
                code := st₀.chunk.code ++
                  (f.apply (i16OfNat (st₁.chunk.len - st₀.chunk.len))).encode
                    ++ extraCode } }, ?_, rfl, rfl, rfl, ?_⟩
    · have hpatch : st₁.chunk.patch ⟨st₀.chunk.code.length, 3⟩
          (f.apply (i16OfNat (st₁.chunk.len - st₀.chunk.len))) =
          some { st₁.chunk with
                 code := st₀.chunk.code ++
                   (f.apply (i16OfNat (st₁.chunk.len - st₀.chunk.len))).encode
                     ++ extraCode } := by
        simp [Chunk.patch, hlen3, hwrite]
      simp [resolve_jump, href, hpatch]
    · intro hlt hL
      have hlen : st₁.chunk.code.length =
          st₀.chunk.code.length + 3 + extraCode.length := by
        rw [hcode, hjc]
        simp only [List.length_append, List.length_cons, List.length_nil]
      have hple : st₀.chunk.len ≤ st₁.chunk.len := by
        simp only [Chunk.len]
        omega
      exact usizeAdd_forward st₀.chunk.len st₁.chunk.len hple hlt hL
  · intro st ls f
    refine ⟨rfl, ?_⟩
    intro h1 h2 h3
    exact usizeAdd_backward ls.offset st.chunk.len h1 h2 h3

/-- C1 (witness): the amended jump semantics at concrete inputs. -/
theorem c1_jump_displacement_witness :
    step intOps ⟨⟨[20, 0, 5], [], []⟩, 0, [], []⟩ =
      .ok ⟨⟨[20, 0, 5], [], []⟩, usizeAdd 0 5, [], []⟩ ∧
    usizeAdd 6 (i16Neg (i16OfNat (6 - 2))) = 2 :=
  ⟨(@c1_jump_displacement Int intOps).1
      ⟨⟨[20, 0, 5], [], []⟩, 0, [], []⟩ 5 3 rfl,
   ((@c1_jump_displacement Int intOps).2.2.2
      ⟨⟨[20, 0, 20, 0, 0, 0], [], []⟩, [], 0⟩ ⟨2⟩ .jump).2
      (by norm_num [Chunk.len]) (by norm_num [Chunk.len])
      (by norm_num [Chunk.len])⟩

theorem vmPeek_pair0 (xs : List (Value Num)) (a b : Value Num) :
    vmPeek (xs ++ [a, b]) 0 = .ok b := by
  simp only [vmPeek, List.length_append, List.length_cons, List.length_nil]
  rw [dif_pos (by omega)]
  congr 1
  have h1 : xs.length + (0 + 1 + 1) - 0 - 1 = xs.length + 1 := by omega
  simp only [h1, List.get_eq_getElem]
  rw [List.getElem_append_right (by omega)]
  simp

theorem vmPeek_pair1 (xs : List (Value Num)) (a b : Value Num) :
    vmPeek (xs ++ [a, b]) 1 = .ok a := by
  simp only [vmPeek, List.length_append, List.length_cons, List.length_nil]
  rw [dif_pos (by omega)]
  congr 1
  have h1 : xs.length + (0 + 1 + 1) - 1 - 1 = xs.length := by omega
  simp only [h1, List.get_eq_getElem]
  rw [List.getElem_append_right (by omega)]
  simp

theorem vmPeek_single (xs : List (Value Num)) (a : Value Num) :
    vmPeek (xs ++ [a]) 0 = .ok a := by
  simp only [vmPeek, List.length_append, List.length_cons, List.length_nil]
  rw [dif_pos (by omega)]
  congr 1
  have h1 : xs.length + (0 + 1) - 0 - 1 = xs.length := by omega
  simp only [h1, List.get_eq_getElem]
  rw [List.getElem_append_right (by omega)]
  simp

theorem vmDrop_pair (xs : List (Value Num)) (a b : Value Num) :
    vmDrop (xs ++ [a, b]) 2 = .ok xs := by
  simp only [vmDrop, List.length_append, List.length_cons, List.length_nil]
  rw [if_pos (by omega)]
  congr 1
  have h1 : xs.length + (0 + 1 + 1) - 2 = xs.length := by omega
  rw [h1, List.take_left]

/-- C3: executing `Add` with `left` below `right` on top of the stack: both
Numbers add numerically; otherwise a String operand (left first, then right)
produces the concatenation of the two operands' display forms; otherwise the
run fails with `InvalidAdditionArguments` tagged with the current source
line, leaving the state unchanged. -/
theorem c3_add_semantics (N : NumOps Num) (s : VMState Num) (nip : Nat)
    (rest : List (Value Num)) (l r : Value Num)
    (hdecode : s.chunk.decode s.ip = .ok (.Add, nip))
    (hstack : s.stack = rest ++ [l, r]) :
    (∀ a b, l = .Number a → r = .Number b →
      step N s =
        .ok { s with stack := rest ++ [.Number (N.add a b)], ip := nip }) ∧
    (∀ ls, l = .Object (.String ls) →
      step N s =
        .ok { s with stack := rest ++ [Value.new_string (ls ++ r.toStr N)],
                     ip := nip }) ∧
    (∀ rs, (∀ t, l ≠ .Object (.String t)) → r = .Object (.String rs) →
      step N s =
        .ok { s with stack := rest ++ [Value.new_string (l.toStr N ++ rs)],
                     ip := nip }) ∧
    ((∀ a b, ¬(l = .Number a ∧ r = .Number b)) →
      (∀ t, l ≠ .Object (.String t)) → (∀ t, r ≠ .Object (.String t)) →
      step N s =
        .err (.Runtime (s.chunk.line s.ip) .InvalidAdditionArguments) s) := by
  refine ⟨?_, ?_, ?_, ?_⟩
  · intro a b hl hr
    subst hl; subst hr
    simp [step, hdecode, hstack, vmPeek_pair0, vmPeek_pair1, vmDrop_pair,
      vmPush]
  · intro ls hl
    subst hl
    simp [step, hdecode, hstack, vmPeek_pair0, vmPeek_pair1, vmDrop_pair,
      vmPush, vmAsString]
  · intro rs hnl hr
    subst hr
    match l, hnl with
    | .Nil, _ =>
      simp [step, hdecode, hstack, vmPeek_pair0, vmPeek_pair1, vmDrop_pair,
        vmPush, vmAsString]
    | .Boolean bv, _ =>
      simp [step, hdecode, hstack, vmPeek_pair0, vmPeek_pair1, vmDrop_pair,
        vmPush, vmAsString]
    | .Number nv, _ =>
      simp [step, hdecode, hstack, vmPeek_pair0, vmPeek_pair1, vmDrop_pair,
        vmPush, vmAsString]
    | .Object (.String t), hnl => exact absurd rfl (hnl t)
  · intro hnn hnl hnr
    match l, r, hnn, hnl, hnr with
    | .Object (.String t), _, _, hnl, _ => exact absurd rfl (hnl t)
    | .Nil, .Object (.String t), _, _, hnr => exact absurd rfl (hnr t)
    | .Boolean _, .Object (.String t), _, _, hnr => exact absurd rfl (hnr t)
    | .Number _, .Object (.String t), _, _, hnr => exact absurd rfl (hnr t)
    | .Number a, .Number b, hnn, _, _ => exact absurd ⟨rfl, rfl⟩ (hnn a b)
    | .Nil, .Nil, _, _, _ =>
      simp [step, hdecode, hstack, vmPeek_pair0, vmPeek_pair1, vmAsString]
    | .Nil, .Boolean _, _, _, _ =>
      simp [step, hdecode, hstack, vmPeek_pair0, vmPeek_pair1, vmAsString]
    | .Nil, .Number _, _, _, _ =>
      simp [step, hdecode, hstack, vmPeek_pair0, vmPeek_pair1, vmAsString]
    | .Boolean _, .Nil, _, _, _ =>
      simp [step, hdecode, hstack, vmPeek_pair0, vmPeek_pair1, vmAsString]
    | .Boolean _, .Boolean _, _, _, _ =>
      simp [step, hdecode, hstack, vmPeek_pair0, vmPeek_pair1, vmAsString]
    | .Boolean _, .Number _, _, _, _ =>
      simp [step, hdecode, hstack, vmPeek_pair0, vmPeek_pair1, vmAsString]
    | .Number _, .Nil, _, _, _ =>
      simp [step, hdecode, hstack, vmPeek_pair0, vmPeek_pair1, vmAsString]
    | .Number _, .Boolean _, _, _, _ =>
      simp [step, hdecode, hstack, vmPeek_pair0, vmPeek_pair1, vmAsString]

/-- C3 (witness): the `Add` cases at concrete inputs. -/
theorem c3_add_semantics_witness :
    step intOps ⟨⟨[13], [], []⟩, 0, [Value.Number 2, Value.Number 3], []⟩ =
      .ok ⟨⟨[13], [], []⟩, 1, [Value.Number (intOps.add 2 3)], []⟩ ∧
    step intOps
        ⟨⟨[13], [], []⟩, 0,
          [Value.Object (.String "a"), Value.Number 3], []⟩ =
      .ok ⟨⟨[13], [], []⟩, 1,
        [Value.new_string ("a" ++ (Value.Number (3 : Int)).toStr intOps)],
        []⟩ ∧
    step intOps ⟨⟨[13], [], []⟩, 0, [Value.Nil, Value.Boolean true], []⟩ =
      .err (.Runtime 0 .InvalidAdditionArguments)
        ⟨⟨[13], [], []⟩, 0, [Value.Nil, Value.Boolean true], []⟩ := by
  refine ⟨?_, ?_, ?_⟩
  · exact (c3_add_semantics intOps
      ⟨⟨[13], [], []⟩, 0, [Value.Number 2, Value.Number 3], []⟩ 1 []
      (Value.Number 2) (Value.Number 3) rfl rfl).1 2 3 rfl rfl
  · exact (c3_add_semantics intOps
      ⟨⟨[13], [], []⟩, 0, [Value.Object (.String "a"), Value.Number 3], []⟩
      1 [] (Value.Object (.String "a")) (Value.Number 3) rfl rfl).2.1 "a" rfl
  · exact (c3_add_semantics intOps
      ⟨⟨[13], [], []⟩, 0, [Value.Nil, Value.Boolean true], []⟩ 1 []
      Value.Nil (Value.Boolean true) rfl rfl).2.2.2
      (by intro a b h; exact absurd h.1 (by simp))
      (by intro t h; simp at h) (by intro t h; simp at h)

/-- C6: `SetGlobal` with a name absent from the globals table fails with
`UndefinedGlobal` tagged with the current source line, leaving the VM state
(globals included) unchanged; with the name present it overwrites.
`DefineGlobal` always inserts or overwrites, with no presence check. -/
theorem c6_global_define_set (N : NumOps Num) (s : VMState Num) :
    (∀ index nip name v,
      s.chunk.decode s.ip = .ok (.SetGlobal index, nip) →
      s.chunk.constant index = .ok (.Object (.String name)) →
      vmPeek s.stack 0 = .ok v →
      gContains s.globals name = false →
      step N s =
        .err (.Runtime (s.chunk.line s.ip) (.UndefinedGlobal name)) s) ∧
    (∀ index nip name v,
      s.chunk.decode s.ip = .ok (.SetGlobal index, nip) →
      s.chunk.constant index = .ok (.Object (.String name)) →
      vmPeek s.stack 0 = .ok v →
      gContains s.globals name = true →
      step N s =
        .ok { s with globals := gInsert s.globals name v, ip := nip }) ∧
    (∀ index nip name v stack',
      s.chunk.decode s.ip = .ok (.DefineGlobal index, nip) →
      s.chunk.constant index = .ok (.Object (.String name)) →
      vmPeek s.stack 0 = .ok v →
      vmDrop s.stack 1 = .ok stack' →
      step N s =
        .ok { s with globals := gInsert s.globals name v, stack := stack',
                     ip := nip }) := by
  refine ⟨?_, ?_, ?_⟩
  · intro index nip name v hdec hconst hpeek hcontains
    simp [step, hdec, hconst, hpeek, hcontains, vmAsIdentifier]
  · intro index nip name v hdec hconst hpeek hcontains
    simp [step, hdec, hconst, hpeek, hcontains, vmAsIdentifier]
  · intro index nip name v stack' hdec hconst hpeek hdrop
    simp [step, hdec, hconst, hpeek, hdrop, vmAsIdentifier]

/-- C6 (witness): the SetGlobal failure and DefineGlobal overwrite at
concrete inputs. -/
theorem c6_global_define_set_witness :
    step intOps
        ⟨⟨[9, 0], [], [Value.Object (.String "x")]⟩, 0, [Value.Nil], []⟩ =
      .err (.Runtime 0 (.UndefinedGlobal "x"))
        ⟨⟨[9, 0], [], [Value.Object (.String "x")]⟩, 0, [Value.Nil], []⟩ ∧
    step intOps
        ⟨⟨[8, 0], [], [Value.Object (.String "x")]⟩, 0, [Value.Nil],
          [("x", Value.Boolean true)]⟩ =
      .ok ⟨⟨[8, 0], [], [Value.Object (.String "x")]⟩, 2, [],
        [("x", Value.Nil), ("x", Value.Boolean true)]⟩ := by
  constructor
  · exact (c6_global_define_set intOps _).1 0 2 "x" Value.Nil rfl rfl rfl rfl
  · exact (c6_global_define_set intOps _).2.2 0 2 "x" Value.Nil [] rfl rfl
      rfl rfl

/-- C10: `SetLocal(index)` with a non-empty stack of size at most `index`
panics on the out-of-bounds `Vec` indexing instead of returning a `VMError`;
`SetLocal` never produces the `UndefinedLocal` runtime error, which only
`GetLocal` produces. -/
theorem c10_setlocal_panics (N : NumOps Num) :
    (∀ (s : VMState Num) (index nip : Nat),
       s.chunk.decode s.ip = .ok (.SetLocal index, nip) →
       s.stack ≠ [] → s.stack.length ≤ index →
       step N s = .crash) ∧
    (∀ (s s' : VMState Num) (index nip line i : Nat),
       s.chunk.decode s.ip = .ok (.SetLocal index, nip) →
       step N s ≠ .err (.Runtime line (.UndefinedLocal i)) s') ∧
    (∀ (s : VMState Num) (index nip : Nat),
       s.chunk.decode s.ip = .ok (.GetLocal index, nip) →
       s.stack.get? index = none →
       step N s =
         .err (.Runtime (s.chunk.line s.ip) (.UndefinedLocal index)) s) := by
  refine ⟨?_, ?_, ?_⟩
  · intro s index nip hdec hne hle
    have hpos : 0 < s.stack.length := List.length_pos.mpr hne
    simp [step, hdec, vmPeek, hpos, show ¬ index < s.stack.length by omega]
  · intro s s' index nip line i hdec
    by_cases hempty : s.stack.length = 0
    · simp [step, hdec, vmPeek, hempty]
    · by_cases hidx : index < s.stack.length
      · simp [step, hdec, vmPeek, show 0 < s.stack.length by omega, hidx]
      · simp [step, hdec, vmPeek, show 0 < s.stack.length by omega, hidx]
  · intro s index nip hdec hget
    rw [List.get?_eq_getElem?] at hget
    simp [step, hdec, hget]

/-- C10 (witness): `SetLocal 1` on the one-element stack crashes; a decoded
`SetLocal` never reports `UndefinedLocal`; `GetLocal 1` on the same stack
does report `UndefinedLocal`. -/
theorem c10_setlocal_panics_witness :
    step intOps ⟨⟨[6, 1], [], []⟩, 0, [Value.Nil], []⟩ = .crash ∧
    step intOps ⟨⟨[5, 1], [], []⟩, 0, [Value.Nil], []⟩ =
      .err (.Runtime 0 (.UndefinedLocal 1))
        ⟨⟨[5, 1], [], []⟩, 0, [Value.Nil], []⟩ := by
  constructor
  · exact (c10_setlocal_panics intOps).1 ⟨⟨[6, 1], [], []⟩, 0, [Value.Nil], []⟩
      1 2 rfl (by simp) (by simp)
  · exact (c10_setlocal_panics intOps).2.2
      ⟨⟨[5, 1], [], []⟩, 0, [Value.Nil], []⟩ 1 2 rfl rfl

theorem enumFrom_append' {α : Type} (l₁ l₂ : List α) (n : Nat) :
    List.enumFrom n (l₁ ++ l₂) =
      List.enumFrom n l₁ ++ List.enumFrom (n + l₁.length) l₂ := by
  induction l₁ generalizing n with
  | nil => simp
  | cons a t ih =>
      simp only [List.cons_append, List.enumFrom_cons, ih, List.length_cons]
      have harith : n + 1 + t.length = n + (t.length + 1) := by omega
      rw [harith]

theorem resolve_local_concat_self (L : List Local) (nm : Str) (d : Nat)
    (h : L.length < 255) :
    resolve_local (L ++ [⟨nm, d⟩]) nm = some L.length := by
  have henum : (L ++ [(⟨nm, d⟩ : Local)]).enum =
      L.enum ++ [(L.length, (⟨nm, d⟩ : Local))] := by
    simp [List.enum, enumFrom_append', List.enumFrom]
  simp only [resolve_local, henum, List.reverse_append, List.reverse_cons,
    List.reverse_nil, List.nil_append, List.cons_append, List.find?_cons]
  have : ((L.length, (⟨nm, d⟩ : Local)).2.name == nm) = true := by simp
  rw [this]
  simp [Nat.mod_eq_of_lt (by omega : L.length < 256)]

theorem find?_none_of_all {α : Type} (l : List α) (p : α → Bool)
    (h : ∀ x ∈ l, p x = false) : l.find? p = none := by
  induction l with
  | nil => rfl
  | cons a t ih =>
      have ha := h a (by simp)
      simp only [List.find?_cons, ha]
      exact ih (fun x hx => h x (by simp [hx]))

theorem find?_append_none {α : Type} (l₁ l₂ : List α) (p : α → Bool)
    (h : l₁.find? p = none) : (l₁ ++ l₂).find? p = l₂.find? p := by
  induction l₁ with
  | nil => simp
  | cons a t ih =>
      cases hpa : p a
      · rw [List.find?_cons_of_neg _ (by simp [hpa])] at h
        rw [List.cons_append, List.find?_cons_of_neg _ (by simp [hpa])]
        exact ih h
      · rw [List.find?_cons_of_pos _ hpa] at h
        cases h

theorem snd_mem_of_mem_enumFrom {α : Type} :
    ∀ (l : List α) (n : Nat) (q : Nat × α), q ∈ List.enumFrom n l → q.2 ∈ l
  | [], _, q, hq => by simp at hq
  | a :: t, n, q, hq => by
      rw [List.enumFrom_cons] at hq
      rcases List.mem_cons.mp hq with h1 | h2
      · subst h1
        simp
      · exact List.mem_cons.2
          (Or.inr (snd_mem_of_mem_enumFrom t (n + 1) q h2))

/-- The backward scan of `resolve_local` returns the slot of the last
occurrence of a name: any earlier occurrences are shadowed, and entries
after it with other names are skipped. -/
theorem resolve_local_last_occurrence (L₀ L₁ : List Local) (nm : Str)
    (d₀ : Nat) (hnot : ∀ l ∈ L₁, l.name ≠ nm) (hlen : L₀.length < 256) :
    resolve_local (L₀ ++ ⟨nm, d₀⟩ :: L₁) nm = some L₀.length := by
  have henum : (L₀ ++ ⟨nm, d₀⟩ :: L₁).enum =
      L₀.enum ++ (L₀.length, (⟨nm, d₀⟩ : Local)) ::
        List.enumFrom (L₀.length + 1) L₁ := by
    simp only [List.enum, enumFrom_append', List.enumFrom_cons, Nat.zero_add]
  have hrev : (L₀ ++ ⟨nm, d₀⟩ :: L₁).enum.reverse =
      (List.enumFrom (L₀.length + 1) L₁).reverse ++
        ((L₀.length, (⟨nm, d₀⟩ : Local)) :: L₀.enum.reverse) := by
    rw [henum, List.reverse_append, List.reverse_cons, List.append_assoc,
      List.singleton_append]
  have hside : ((List.enumFrom (L₀.length + 1) L₁).reverse).find?
      (fun p => p.2.name == nm) = none := by
    apply find?_none_of_all
    intro q hq
    have hm := snd_mem_of_mem_enumFrom L₁ (L₀.length + 1) q
      (List.mem_reverse.mp hq)
    simpa using hnot q.2 hm
  simp only [resolve_local, hrev]
  rw [find?_append_none _ _ _ hside]
  simp only [List.find?_cons]
  have : ((L₀.length, (⟨nm, d₀⟩ : Local)).2.name == nm) = true := by simp
  rw [this]
  simp [Nat.mod_eq_of_lt hlen]

theorem mem_of_getLast?' {α : Type} {l : List α} {a : α}
    (h : l.getLast? = some a) : a ∈ l := by
  rcases List.eq_nil_or_concat l with rfl | ⟨l', b, rfl⟩
  · simp at h
  · rw [List.concat_eq_append] at h ⊢
    rw [List.getLast?_concat] at h
    injection h with h
    subst h
    simp

theorem popLocals_stable (ch : Chunk Num) (ls : List Local) (d : Nat)
    (h : ∀ l ∈ ls, l.scope_depth ≤ d) : popLocals ch ls d = (ch, ls) := by
  rw [popLocals]
  split
  next l heq =>
    rw [if_neg]
    have := h l (mem_of_getLast?' heq)
    omega
  next heq => rfl

theorem popLocals_concat (post : List Local) : ∀ (ch : Chunk Num)
    (pre : List Local) (d : Nat),
    (∀ l ∈ pre, l.scope_depth ≤ d) → (∀ l ∈ post, d < l.scope_depth) →
    ∃ ch', popLocals ch (pre ++ post) d = (ch', pre) ∧
      ch'.code = ch.code ++ List.replicate post.length OP_POP ∧
      ch'.lines.length = ch.lines.length + post.length ∧
      ch'.constants = ch.constants := by
  induction post using List.reverseRecOn with
  | nil =>
      intro ch pre d hpre _
      refine ⟨ch, ?_, by simp, by simp, rfl⟩
      simpa using popLocals_stable ch pre d hpre
  | append_singleton post' x ih =>
      intro ch pre d hpre hpost
      have hx : d < x.scope_depth := hpost x (by simp)
      have hstep : popLocals ch (pre ++ (post' ++ [x])) d =
          popLocals (ch.add .Pop 0).2 (pre ++ post') d := by
        rw [← List.append_assoc, popLocals]
        split
        next l heq =>
          rw [List.getLast?_concat] at heq
          injection heq with heq
          subst heq
          rw [if_pos hx, List.dropLast_concat]
        next heq =>
          rw [List.getLast?_concat] at heq
          simp at heq
      obtain ⟨ch', h1, h2, h3, h4⟩ := ih (ch.add .Pop 0).2 pre d hpre
        (fun l hl => hpost l (by simp [hl]))
      refine ⟨ch', by rw [hstep, h1], ?_, ?_, by simpa using h4⟩
      · rw [h2]
        have hc : ((ch.add .Pop 0).2).code = ch.code ++ [OP_POP] := rfl
        rw [hc, List.append_assoc]
        congr 1
        simp [List.replicate_succ]
      · rw [h3]
        have hl : ((ch.add .Pop 0).2).lines.length = ch.lines.length + 1 := rfl
        rw [hl]
        simp
        omega

/-! Unfolding equations for `compile_stmt` / `compile_stmt_list` (the
automatic equation generator does not handle the nested recursion, but each
constructor case reduces definitionally). -/

theorem compile_stmt_block_eq (st : CompilerSt Num) (stmts : List (Stmt Num)) :
    compile_stmt st (.Block stmts) =
      match begin_scope st with
      | .err e => .err e
      | .fatal => .fatal
      | .ok st₁ =>
        match compile_stmt_list st₁ stmts with
        | .err e => .err e
        | .fatal => .fatal
        | .ok st₂ => end_scope st₂ := rfl

theorem compile_stmt_class_eq (st : CompilerSt Num) (a : SourceToken Num)
    (b : List (SourceToken Num)) :
    compile_stmt st (.Class a b) = .fatal := rfl

theorem compile_stmt_expression_eq (st : CompilerSt Num) (e : Expr Num) :
    compile_stmt st (.Expression e) =
      match compile_expr st e with
      | .err e => .err e
      | .fatal => .fatal
      | .ok st₁ => .ok (emit st₁ .Pop 0) := rfl

theorem compile_stmt_function_eq (st : CompilerSt Num)
    (nm : SourceToken Num) (ps : List (SourceToken Num))
    (body : List (Stmt Num)) :
    compile_stmt st (.Function nm ps body) = .fatal := rfl

theorem compile_stmt_if_none_eq (st : CompilerSt Num) (cond : Expr Num)
    (tb : Stmt Num) :
    compile_stmt st (.If cond tb none) =
      match compile_expr st cond with
      | .err e => .err e
      | .fatal => .fatal
      | .ok st₁ =>
        match compile_stmt (emit (jump st₁ .jumpIfFalse).2 .Pop 0) tb with
        | .err e => .err e
        | .fatal => .fatal
        | .ok st₄ => resolve_jump st₄ (jump st₁ .jumpIfFalse).1 := rfl

theorem compile_stmt_if_some_eq (st : CompilerSt Num) (cond : Expr Num)
    (tb fb : Stmt Num) :
    compile_stmt st (.If cond tb (some fb)) =
      match compile_expr st cond with
      | .err e => .err e
      | .fatal => .fatal
      | .ok st₁ =>
        match compile_stmt (emit (jump st₁ .jumpIfFalse).2 .Pop 0) tb with
        | .err e => .err e
        | .fatal => .fatal
        | .ok st₄ =>
          match resolve_jump (jump st₄ .jump).2 (jump st₁ .jumpIfFalse).1 with
          | .err e => .err e
          | .fatal => .fatal
          | .ok st₆ =>
            match compile_stmt (emit st₆ .Pop 0) fb with
            | .err e => .err e
            | .fatal => .fatal
            | .ok st₈ => resolve_jump st₈ (jump st₄ .jump).1 := rfl

theorem compile_stmt_print_eq (st : CompilerSt Num) (e : Expr Num) :
    compile_stmt st (.Print e) =
      match compile_expr st e with
      | .err e => .err e
      | .fatal => .fatal
      | .ok st₁ => .ok (emit st₁ .Print 0) := rfl

theorem compile_stmt_return_eq (st : CompilerSt Num)
    (tok : SourceToken Num) (v : Option (Expr Num)) :
    compile_stmt st (.Return tok v) = .fatal := rfl

theorem compile_stmt_var_none_eq (st : CompilerSt Num)
    (tok : SourceToken Num) :
    compile_stmt st (.Var tok none) =
      if 0 < st.scope_depth then
        if st.locals.length = 255 then .err .TooManyLocals
        else if st.locals.any (fun x =>
            x.scope_depth == st.scope_depth && x.name == tok.lexeme) then
          .err (.VariableAlreadyDeclared tok.lexeme)
        else .ok ⟨(st.chunk.add .Nil tok.line).2,
                  st.locals ++ [⟨tok.lexeme, st.scope_depth⟩], st.scope_depth⟩
      else
        match add_string (emit st .Nil tok.line) tok.lexeme with
        | .err e => .err e
        | .fatal => .fatal
        | .ok (constant, st₂) => .ok (emit st₂ (.DefineGlobal constant) 0) :=
  rfl

theorem compile_stmt_var_some_eq (st : CompilerSt Num)
    (tok : SourceToken Num) (e : Expr Num) :
    compile_stmt st (.Var tok (some e)) =
      match compile_expr st e with
      | .err e => .err e
      | .fatal => .fatal
      | .ok st₁ =>
        if 0 < st₁.scope_depth then
          if st₁.locals.length = 255 then .err .TooManyLocals
          else if st₁.locals.any (fun x =>
              x.scope_depth == st₁.scope_depth && x.name == tok.lexeme) then
            .err (.VariableAlreadyDeclared tok.lexeme)
          else .ok ⟨st₁.chunk,
                    st₁.locals ++ [⟨tok.lexeme, st₁.scope_depth⟩],
                    st₁.scope_depth⟩
        else
          match add_string st₁ tok.lexeme with
          | .err e => .err e
          | .fatal => .fatal
          | .ok (constant, st₂) => .ok (emit st₂ (.DefineGlobal constant) 0) :=
  rfl

theorem compile_stmt_while_eq (st : CompilerSt Num) (cond : Expr Num)
    (body : Stmt Num) :
    compile_stmt st (.While cond body) =
      match compile_expr st cond with
      | .err e => .err e
      | .fatal => .fatal
      | .ok st₁ =>
        match compile_stmt (emit (jump st₁ .jumpIfFalse).2 .Pop 0) body with
        | .err e => .err e
        | .fatal => .fatal
        | .ok st₄ =>
          match resolve_jump (jump_loop st₄ (loop_start st) .jump)
              (jump st₁ .jumpIfFalse).1 with
          | .err e => .err e
          | .fatal => .fatal
          | .ok st₆ => .ok (emit st₆ .Pop 0) := rfl

theorem compile_stmt_list_nil_eq (st : CompilerSt Num) :
    compile_stmt_list st [] = .ok st := rfl

theorem compile_stmt_list_cons_eq (st : CompilerSt Num) (s : Stmt Num)
    (rest : List (Stmt Num)) :
    compile_stmt_list st (s :: rest) =
      match compile_stmt st s with
      | .err e => .err e
      | .fatal => .fatal
      | .ok st₁ => compile_stmt_list st₁ rest := rfl

set_option maxRecDepth 10000 in
/-- C5 (counterexample): the unqualified claim fails when 255 locals are
live. The capacity check in `compile_stmt`'s `Var` arm precedes the
duplicate check, so redeclaring `x` at the same depth reports
`TooManyLocals`, not `VariableAlreadyDeclared`, even though a same-depth
duplicate is present; and declaring at a strictly deeper scope fails with
`TooManyLocals` as well instead of succeeding. -/
theorem c5_shadowing_counterexample :
    compile_stmt (⟨Chunk.new, List.replicate 255 ⟨"x", 1⟩, 1⟩ :
        CompilerSt Int) (.Var ⟨.Identifier "x", "x", 7⟩ none) =
      .err .TooManyLocals ∧
    (⟨"x", 1⟩ : Local) ∈ List.replicate 255 (⟨"x", 1⟩ : Local) ∧
    (⟨"x", 1⟩ : Local).scope_depth = 1 ∧
    CompilerError.TooManyLocals ≠ .VariableAlreadyDeclared "x" ∧
    compile_stmt (⟨Chunk.new, List.replicate 255 ⟨"x", 1⟩, 2⟩ :
        CompilerSt Int) (.Var ⟨.Identifier "x", "x", 7⟩ none) =
      .err .TooManyLocals := by
  refine ⟨?_, ?_, rfl, ?_, ?_⟩
  · rw [compile_stmt_var_none_eq]
    simp
  · simp
  · intro h
    cases h
  · rw [compile_stmt_var_none_eq]
    simp

/-- C5 (amended): when fewer than 255 locals are live, declaring a local
whose name already occurs among the locals at the current scope depth fails
with `VariableAlreadyDeclared` (at exactly 255 live locals the capacity
check fires first and both the duplicate and the deeper declaration fail
with `TooManyLocals` instead); declaring a name that is absent at the
current (deeper) depth succeeds and appends the local; while the inner
scope is open, `resolve_local`'s backward scan returns the innermost
(appended) declaration's slot; when the scope closes, `end_scope` removes
exactly the inner local and emits one `Pop`, restoring the outer list; and
over any list the backward scan resolves a name to the slot of its last
occurrence, so references then resolve to the outer binding again. -/
theorem c5_shadowing :
    (∀ (st : CompilerSt Num) (tok : SourceToken Num),
      0 < st.scope_depth → st.locals.length ≠ 255 →
      (∃ l ∈ st.locals, l.scope_depth = st.scope_depth ∧ l.name = tok.lexeme) →
      compile_stmt st (.Var tok none) =
        .err (.VariableAlreadyDeclared tok.lexeme)) ∧
    (∀ (st : CompilerSt Num) (tok : SourceToken Num),
      0 < st.scope_depth → st.locals.length ≠ 255 →
      (∀ l ∈ st.locals,
        ¬(l.scope_depth = st.scope_depth ∧ l.name = tok.lexeme)) →
      compile_stmt st (.Var tok none) =
        .ok ⟨(st.chunk.add .Nil tok.line).2,
             st.locals ++ [⟨tok.lexeme, st.scope_depth⟩],
             st.scope_depth⟩) ∧
    (∀ (L : List Local) (nm : Str) (d : Nat), L.length < 255 →
      resolve_local (L ++ [⟨nm, d⟩]) nm = some L.length) ∧
    (∀ (ch : Chunk Num) (L : List Local) (nm : Str) (d : Nat),
      (∀ l ∈ L, l.scope_depth ≤ d) →
      ∃ ch', end_scope ⟨ch, L ++ [⟨nm, d + 1⟩], d + 1⟩ = .ok ⟨ch', L, d⟩ ∧
        ch'.code = ch.code ++ [OP_POP]) ∧
    (∀ (L₀ L₁ : List Local) (nm : Str) (d₀ : Nat),
      (∀ l ∈ L₁, l.name ≠ nm) → L₀.length < 256 →
      resolve_local (L₀ ++ ⟨nm, d₀⟩ :: L₁) nm = some L₀.length) := by
  refine ⟨?_, ?_, ?_, ?_, ?_⟩
  · intro st tok hd hlen hdup
    obtain ⟨l, hmem, h1, h2⟩ := hdup
    have hany : (st.locals.any (fun x =>
        x.scope_depth == st.scope_depth && x.name == tok.lexeme)) = true := by
      rw [List.any_eq_true]
      exact ⟨l, hmem, by simp [h1, h2]⟩
    rw [compile_stmt_var_none_eq, if_pos hd, if_neg hlen, if_pos hany]
  · intro st tok hd hlen hfresh
    have hany : (st.locals.any (fun x =>
        x.scope_depth == st.scope_depth && x.name == tok.lexeme)) = false := by
      rw [List.any_eq_false]
      intro x hx
      have := hfresh x hx
      simp only [Bool.and_eq_true, beq_iff_eq]
      intro hcontra
      exact this ⟨hcontra.1, hcontra.2⟩
    rw [compile_stmt_var_none_eq, if_pos hd, if_neg hlen,
      if_neg (by simp [hany])]
  · intro L nm d h
    exact resolve_local_concat_self L nm d h
  · intro ch L nm d hdepth
    obtain ⟨ch', h1, h2, _, _⟩ :=
      popLocals_concat [⟨nm, d + 1⟩] ch L d hdepth (by simp)
    refine ⟨ch', ?_, by simpa using h2⟩
    simp only [end_scope]
    rw [if_neg (by omega)]
    simp only [Nat.add_sub_cancel, h1]
  · intro L₀ L₁ nm d₀ hnot hlen
    exact resolve_local_last_occurrence L₀ L₁ nm d₀ hnot hlen

/-- C5 (witness): shadowing at concrete inputs: redeclaring `x` at depth 1
fails; declaring `x` at depth 2 over an outer `x` at depth 1 succeeds; the
inner slot wins while open; closing the scope restores the outer list; and
over the restored list `[y, x, z]` (no later `x`), `x` resolves to the
remaining occurrence's slot 1. -/
theorem c5_shadowing_witness :
    compile_stmt (⟨Chunk.new, [⟨"x", 1⟩], 1⟩ : CompilerSt Int)
        (.Var ⟨.Identifier "x", "x", 7⟩ none) =
      .err (.VariableAlreadyDeclared "x") ∧
    compile_stmt (⟨Chunk.new, [⟨"x", 1⟩], 2⟩ : CompilerSt Int)
        (.Var ⟨.Identifier "x", "x", 7⟩ none) =
      .ok ⟨(Chunk.add (Chunk.new : Chunk Int) .Nil 7).2,
        [⟨"x", 1⟩, ⟨"x", 2⟩], 2⟩ ∧
    resolve_local [⟨"x", 1⟩, ⟨"x", 2⟩] "x" = some 1 ∧
    (∃ ch', end_scope (⟨Chunk.new, [⟨"x", 1⟩, ⟨"x", 2⟩], 2⟩ :
        CompilerSt Int) = .ok ⟨ch', [⟨"x", 1⟩], 1⟩ ∧
      ch'.code = [OP_POP]) ∧
    resolve_local [⟨"y", 1⟩, ⟨"x", 1⟩, ⟨"z", 1⟩] "x" = some 1 := by
  refine ⟨?_, ?_, ?_, ?_, ?_⟩
  · exact (@c5_shadowing Int).1 ⟨Chunk.new, [⟨"x", 1⟩], 1⟩
      ⟨.Identifier "x", "x", 7⟩ (by decide) (by simp)
      ⟨⟨"x", 1⟩, by simp, rfl, rfl⟩
  · exact (@c5_shadowing Int).2.1 ⟨Chunk.new, [⟨"x", 1⟩], 2⟩
      ⟨.Identifier "x", "x", 7⟩ (by decide) (by simp)
      (by intro l hl hcontra
          simp at hl
          rw [hl] at hcontra
          simp at hcontra)
  · exact (@c5_shadowing Int).2.2.1 [⟨"x", 1⟩] "x" 2 (by simp)
  · obtain ⟨ch', h1, h2⟩ := (@c5_shadowing Int).2.2.2.1
      Chunk.new [⟨"x", 1⟩] "x" 1 (by intro l hl; simp at hl; simp [hl])
    exact ⟨ch', h1, by simpa [Chunk.new] using h2⟩
  · exact (@c5_shadowing Int).2.2.2.2 [⟨"y", 1⟩] [⟨"z", 1⟩] "x" 1
      (by decide) (by decide)

theorem resolve_jump_cases {st : CompilerSt Num} {j : JumpPatchReference}
    {st' : CompilerSt Num} (h : resolve_jump st j = .ok st') :
    st'.locals = st.locals ∧ st'.scope_depth = st.scope_depth := by
  simp only [resolve_jump] at h
  split at h
  · cases h
    exact ⟨rfl, rfl⟩
  · cases h

theorem add_string_cases {st : CompilerSt Num} {s : Str} {c : Nat}
    {st' : CompilerSt Num} (h : add_string st s = .ok (c, st')) :
    st'.locals = st.locals ∧ st'.scope_depth = st.scope_depth := by
  simp only [add_string] at h
  split at h
  · cases h
    exact ⟨rfl, rfl⟩
  · cases h

/-- `compile_expr` never touches the locals list or the scope depth. -/
theorem compile_expr_locals : ∀ (e : Expr Num) (st st' : CompilerSt Num),
    compile_expr st e = .ok st' →
    st'.locals = st.locals ∧ st'.scope_depth = st.scope_depth
  | .Assign name value, st, st', h => by
      simp only [compile_expr] at h
      split at h
      · cases h
      · cases h
      · next st₁ heq =>
          have ih := compile_expr_locals value st st₁ heq
          split at h
          · cases h
            exact ⟨by simp [emit, ih.1], by simp [emit, ih.2]⟩
          · split at h
            · cases h
            · cases h
            · next c st₂ heq2 =>
                cases h
                have h2 := add_string_cases heq2
                exact ⟨by simp [emit, h2.1, ih.1], by simp [emit, h2.2, ih.2]⟩
  | .Binary left op right, st, st', h => by
      simp only [compile_expr] at h
      split at h
      · cases h
      · cases h
      · next st₁ heq1 =>
          have ih1 := compile_expr_locals left st st₁ heq1
          split at h
          · cases h
          · cases h
          · next st₂ heq2 =>
              have ih2 := compile_expr_locals right st₁ st₂ heq2
              have hl : st₂.locals = st.locals := ih2.1.trans ih1.1
              have hd : st₂.scope_depth = st.scope_depth := ih2.2.trans ih1.2
              split at h <;> cases h <;>
                exact ⟨by simp [emit, hl], by simp [emit, hd]⟩
  | .Call callee paren args, st, st', h => by
      simp only [compile_expr] at h
      cases h
  | .Logical left op right, st, st', h => by
      simp only [compile_expr] at h
      split at h
      · cases h
      · cases h
      · next st₁ heq1 =>
          have ih1 := compile_expr_locals left st st₁ heq1
          split at h
          -- Token.Or
          · split at h
            · cases h
            · cases h
            · next st₄ heq4 =>
                have h4 := resolve_jump_cases heq4
                split at h
                · cases h
                · cases h
                · next st₆ heq6 =>
                    have ih2 := compile_expr_locals right _ st₆ heq6
                    have h6 := resolve_jump_cases h
                    refine ⟨?_, ?_⟩
                    · rw [h6.1, ih2.1]
                      simp [emit, jump] at h4 ⊢
                      rw [h4.1, ih1.1]
                    · rw [h6.2, ih2.2]
                      simp [emit, jump] at h4 ⊢
                      rw [h4.2, ih1.2]
          -- Token.And
          · split at h
            · cases h
            · cases h
            · next st₄ heq4 =>
                have ih2 := compile_expr_locals right _ st₄ heq4
                have h4 := resolve_jump_cases h
                refine ⟨?_, ?_⟩
                · rw [h4.1, ih2.1]
                  simp [emit, jump]
                  exact ih1.1
                · rw [h4.2, ih2.2]
                  simp [emit, jump]
                  exact ih1.2
          · cases h
  | .Unary op value, st, st', h => by
      simp only [compile_expr] at h
      split at h
      · cases h
      · cases h
      · next st₁ heq =>
          have ih := compile_expr_locals value st st₁ heq
          split at h <;> cases h <;>
            exact ⟨by simp [emit, ih.1], by simp [emit, ih.2]⟩
  | .Grouping e, st, st', h => by
      rw [compile_expr] at h
      exact compile_expr_locals e st st' h
  | .Var name, st, st', h => by
      simp only [compile_expr] at h
      split at h
      · cases h
        exact ⟨by simp [emit], by simp [emit]⟩
      · split at h
        · cases h
        · cases h
        · next c st₁ heq =>
            cases h
            have h1 := add_string_cases heq
            exact ⟨by simp [emit, h1.1], by simp [emit, h1.2]⟩
  | .String token value, st, st', h => by
      simp only [compile_expr] at h
      split at h
      · cases h
      · cases h
      · next c st₁ heq =>
          cases h
          have h1 := add_string_cases heq
          exact ⟨by simp [emit, h1.1], by simp [emit, h1.2]⟩
  | .Number token value, st, st', h => by
      simp only [compile_expr] at h
      split at h
      · cases h
      · next c ch heq =>
          cases h
          exact ⟨by simp [emit], by simp [emit]⟩
  | .Boolean token value, st, st', h => by
      simp only [compile_expr] at h
      cases h
      exact ⟨by simp [emit], by simp [emit]⟩
  | .Nil token, st, st', h => by
      simp only [compile_expr] at h
      cases h
      exact ⟨by simp [emit], by simp [emit]⟩

theorem ScopeOK.rfl' (a : CompilerSt Num) : ScopeOK a a :=
  ⟨rfl, [], by simp, by simp⟩

theorem ScopeOK.of_same {a b : CompilerSt Num} (hl : b.locals = a.locals)
    (hd : b.scope_depth = a.scope_depth) : ScopeOK a b :=
  ⟨hd, [], by simp [hl], by simp⟩

theorem ScopeOK.trans' {a b c : CompilerSt Num} (h1 : ScopeOK a b)
    (h2 : ScopeOK b c) : ScopeOK a c := by
  obtain ⟨hd1, e1, hl1, he1⟩ := h1
  obtain ⟨hd2, e2, hl2, he2⟩ := h2
  refine ⟨hd2.trans hd1, e1 ++ e2, by rw [hl2, hl1, List.append_assoc], ?_⟩
  intro l hm
  rcases List.mem_append.mp hm with hm1 | hm2
  · exact he1 l hm1
  · have := he2 l hm2
    rw [hd1] at this
    exact this

theorem WfLocals.of_scopeOK {a b : CompilerSt Num} (hwf : WfLocals a)
    (hs : ScopeOK a b) : WfLocals b := by
  obtain ⟨hd, extra, hl, he⟩ := hs
  intro l hm
  rw [hl] at hm
  rw [hd]
  rcases List.mem_append.mp hm with h1 | h2
  · exact hwf l h1
  · exact le_of_eq (he l h2).1

theorem emit_locals (st : CompilerSt Num) (op : OpCode) (line : Nat) :
    (emit st op line).locals = st.locals := rfl

theorem emit_depth (st : CompilerSt Num) (op : OpCode) (line : Nat) :
    (emit st op line).scope_depth = st.scope_depth := rfl

theorem jump_locals (st : CompilerSt Num) (f : JumpOpFactory) :
    ((jump st f).2).locals = st.locals := rfl

theorem jump_depth (st : CompilerSt Num) (f : JumpOpFactory) :
    ((jump st f).2).scope_depth = st.scope_depth := rfl

theorem jump_loop_locals (st : CompilerSt Num) (ls : JumpLoopReference)
    (f : JumpOpFactory) : (jump_loop st ls f).locals = st.locals := rfl

theorem jump_loop_depth (st : CompilerSt Num) (ls : JumpLoopReference)
    (f : JumpOpFactory) : (jump_loop st ls f).scope_depth = st.scope_depth :=
  rfl

theorem scopeOK_of_expr {st st' : CompilerSt Num} {e : Expr Num}
    (h : compile_expr st e = .ok st') : ScopeOK st st' :=
  ScopeOK.of_same (compile_expr_locals e st st' h).1
    (compile_expr_locals e st st' h).2

theorem scopeOK_of_resolve_jump {st st' : CompilerSt Num}
    {j : JumpPatchReference} (h : resolve_jump st j = .ok st') :
    ScopeOK st st' :=
  ScopeOK.of_same (resolve_jump_cases h).1 (resolve_jump_cases h).2

mutual

/-- Scope accounting of `compile_stmt`: a successfully compiled statement
leaves the scope depth unchanged and only appends locals declared at the
current depth (none when the depth is 0). -/
theorem compile_stmt_scope : ∀ (s : Stmt Num) (st st' : CompilerSt Num),
    WfLocals st → compile_stmt st s = .ok st' → ScopeOK st st'
  | .Block stmts, st, st', hwf, h => by
      rw [compile_stmt_block_eq] at h
      split at h
      · cases h
      · cases h
      · next st₁ heqb =>
          simp only [begin_scope] at heqb
          split at heqb
          · cases heqb
          · cases heqb
            have hwf₁ : WfLocals { st with scope_depth := st.scope_depth + 1 } :=
              fun l hm => le_trans (hwf l hm) (by simp)
            split at h
            · cases h
            · cases h
            · next st₂ heql =>
                have ih := compile_stmt_list_scope stmts _ st₂ hwf₁ heql
                obtain ⟨hd₂, extra₂, hl₂, he₂⟩ := ih
                simp only at hd₂ hl₂ he₂
                obtain ⟨ch', hpop, hcode, hlines, hconst⟩ :=
                  popLocals_concat extra₂ st₂.chunk st.locals st.scope_depth
                    hwf (fun l hm => by rw [(he₂ l hm).1]; omega)
                simp only [end_scope] at h
                rw [if_neg (by omega)] at h
                rw [hl₂, hd₂] at h
                simp only [Nat.add_sub_cancel] at h
                rw [hpop] at h
                cases h
                exact ⟨rfl, [], by simp, by simp⟩
  | .Class a b, st, st', hwf, h => by
      rw [compile_stmt_class_eq] at h
      cases h
  | .Expression e, st, st', hwf, h => by
      rw [compile_stmt_expression_eq] at h
      split at h
      · cases h
      · cases h
      · next st₁ heq =>
          cases h
          exact (scopeOK_of_expr heq).trans'
            (ScopeOK.of_same (emit_locals ..) (emit_depth ..))
  | .Function nm ps body, st, st', hwf, h => by
      rw [compile_stmt_function_eq] at h
      cases h
  | .If cond tb none, st, st', hwf, h => by
      rw [compile_stmt_if_none_eq] at h
      split at h
      · cases h
      · cases h
      · next st₁ heq1 =>
          have s1 : ScopeOK st st₁ := scopeOK_of_expr heq1
          split at h
          · cases h
          · cases h
          · next st₄ heq4 =>
              have s2 : ScopeOK st₁ (emit (jump st₁ .jumpIfFalse).2 .Pop 0) :=
                ScopeOK.of_same (by rw [emit_locals, jump_locals])
                  (by rw [emit_depth, jump_depth])
              have s12 := s1.trans' s2
              have s3 := compile_stmt_scope tb _ st₄
                (hwf.of_scopeOK s12) heq4
              exact ((s12.trans' s3).trans' (scopeOK_of_resolve_jump h))
  | .If cond tb (some fb), st, st', hwf, h => by
      rw [compile_stmt_if_some_eq] at h
      split at h
      · cases h
      · cases h
      · next st₁ heq1 =>
          have s1 : ScopeOK st st₁ := scopeOK_of_expr heq1
          split at h
          · cases h
          · cases h
          · next st₄ heq4 =>
              have s2 : ScopeOK st₁ (emit (jump st₁ .jumpIfFalse).2 .Pop 0) :=
                ScopeOK.of_same (by rw [emit_locals, jump_locals])
                  (by rw [emit_depth, jump_depth])
              have s12 := s1.trans' s2
              have s3 := compile_stmt_scope tb _ st₄
                (hwf.of_scopeOK s12) heq4
              have s123 := s12.trans' s3
              split at h
              · cases h
              · cases h
              · next st₆ heq6 =>
                  have s4 : ScopeOK st₄ (jump st₄ .jump).2 :=
                    ScopeOK.of_same (jump_locals ..) (jump_depth ..)
                  have s5 := scopeOK_of_resolve_jump heq6
                  have s6 : ScopeOK st₆ (emit st₆ .Pop 0) :=
                    ScopeOK.of_same (emit_locals ..) (emit_depth ..)
                  have sAll := ((s123.trans' s4).trans' s5).trans' s6
                  split at h
                  · cases h
                  · cases h
                  · next st₈ heq8 =>
                      have s7 := compile_stmt_scope fb _ st₈
                        (hwf.of_scopeOK sAll) heq8
                      exact (sAll.trans' s7).trans'
                        (scopeOK_of_resolve_jump h)
  | .Print e, st, st', hwf, h => by
      rw [compile_stmt_print_eq] at h
      split at h
      · cases h
      · cases h
      · next st₁ heq =>
          cases h
          exact (scopeOK_of_expr heq).trans'
            (ScopeOK.of_same (emit_locals ..) (emit_depth ..))
  | .Return tok v, st, st', hwf, h => by
      rw [compile_stmt_return_eq] at h
      cases h
  | .Var tok none, st, st', hwf, h => by
      rw [compile_stmt_var_none_eq] at h
      split at h
      · next hpos =>
          split at h
          · cases h
          · split at h
            · cases h
            · cases h
              refine ⟨rfl, [⟨tok.lexeme, st.scope_depth⟩], by simp, ?_⟩
              intro l hm
              simp at hm
              simp [hm, hpos]
      · next hpos =>
          split at h
          · cases h
          · cases h
          · next c st₂ heq2 =>
              cases h
              have h2 := add_string_cases heq2
              exact ScopeOK.of_same
                (by rw [emit_locals, h2.1, emit_locals])
                (by rw [emit_depth, h2.2, emit_depth])
  | .Var tok (some e), st, st', hwf, h => by
      rw [compile_stmt_var_some_eq] at h
      split at h
      · cases h
      · cases h
      · next st₁ heq1 =>
          have he := compile_expr_locals e st st₁ heq1
          split at h
          · next hpos =>
              split at h
              · cases h
              · split at h
                · cases h
                · cases h
                  refine ⟨by rw [he.2], [⟨tok.lexeme, st₁.scope_depth⟩],
                    by simp [he.1], ?_⟩
                  intro l hm
                  simp at hm
                  subst hm
                  rw [he.2] at hpos
                  simp [he.2, hpos]
          · next hpos =>
              split at h
              · cases h
              · cases h
              · next c st₂ heq2 =>
                  cases h
                  have h2 := add_string_cases heq2
                  exact ScopeOK.of_same
                    (by rw [emit_locals, h2.1, he.1])
                    (by rw [emit_depth, h2.2, he.2])
  | .While cond body, st, st', hwf, h => by
      rw [compile_stmt_while_eq] at h
      split at h
      · cases h
      · cases h
      · next st₁ heq1 =>
          have s1 : ScopeOK st st₁ := scopeOK_of_expr heq1
          split at h
          · cases h
          · cases h
          · next st₄ heq4 =>
              have s2 : ScopeOK st₁ (emit (jump st₁ .jumpIfFalse).2 .Pop 0) :=
                ScopeOK.of_same (by rw [emit_locals, jump_locals])
                  (by rw [emit_depth, jump_depth])
              have s12 := s1.trans' s2
              have s3 := compile_stmt_scope body _ st₄
                (hwf.of_scopeOK s12) heq4
              have s123 := s12.trans' s3
              split at h
              · cases h
              · cases h
              · next st₆ heq6 =>
                  have s4 : ScopeOK st₄ (jump_loop st₄ (loop_start st) .jump) :=
                    ScopeOK.of_same (jump_loop_locals ..) (jump_loop_depth ..)
                  have s5 := scopeOK_of_resolve_jump heq6
                  cases h
                  exact (((s123.trans' s4).trans' s5)).trans'
                    (ScopeOK.of_same (emit_locals ..) (emit_depth ..))

/-- Scope accounting of the statement-list loop. -/
theorem compile_stmt_list_scope : ∀ (l : List (Stmt Num))
    (st st' : CompilerSt Num),
    WfLocals st → compile_stmt_list st l = .ok st' → ScopeOK st st'
  | [], st, st', _, h => by
      rw [compile_stmt_list_nil_eq] at h
      cases h
      exact ScopeOK.rfl' st
  | s :: rest, st, st', hwf, h => by
      rw [compile_stmt_list_cons_eq] at h
      split at h
      · cases h
      · cases h
      · next st₁ heq =>
          have s1 := compile_stmt_scope s st st₁ hwf heq
          have s2 := compile_stmt_list_scope rest st₁ st'
            (hwf.of_scopeOK s1) h
          exact s1.trans' s2

end

/-- C4: compiling a block is balanced in the compiler's stack accounting:
the scope depth and the locals list are restored to their values before the
block, and the bytes appended when the scope closes are exactly one `Pop`
instruction per local declared inside the block and surviving to its close
(removed LIFO from the end of the locals list by `end_scope`), so the tracked
evaluation-stack depth (one slot per live local) after the block equals the
depth before it. -/
theorem c4_block_scope_balance (stmts : List (Stmt Num))
    (st st' : CompilerSt Num) (hwf : WfLocals st)
    (h : compile_stmt st (.Block stmts) = .ok st') :
    st'.scope_depth = st.scope_depth ∧ st'.locals = st.locals ∧
    ∃ stMid extra,
      compile_stmt_list { st with scope_depth := st.scope_depth + 1 } stmts =
        .ok stMid ∧
      stMid.locals = st.locals ++ extra ∧
      (∀ l ∈ extra, l.scope_depth = st.scope_depth + 1) ∧
      extra.length = stMid.locals.length - st.locals.length ∧
      st'.chunk.code = stMid.chunk.code ++
        List.replicate extra.length OP_POP := by
  rw [compile_stmt_block_eq] at h
  split at h
  · cases h
  · cases h
  · next st₁ heqb =>
      simp only [begin_scope] at heqb
      split at heqb
      · cases heqb
      · cases heqb
        split at h
        · cases h
        · cases h
        · next st₂ heql =>
            have hwf₁ :
                WfLocals { st with scope_depth := st.scope_depth + 1 } :=
              fun l hm => le_trans (hwf l hm) (by simp)
            obtain ⟨hd₂, extra₂, hl₂, he₂⟩ :=
              compile_stmt_list_scope stmts _ st₂ hwf₁ heql
            simp only at hd₂ hl₂ he₂
            obtain ⟨ch', hpop, hcode, hlines, hconst⟩ :=
              popLocals_concat extra₂ st₂.chunk st.locals st.scope_depth hwf
                (fun l hm => by rw [(he₂ l hm).1]; omega)
            simp only [end_scope] at h
            rw [if_neg (by omega)] at h
            rw [hl₂, hd₂] at h
            simp only [Nat.add_sub_cancel] at h
            rw [hpop] at h
            cases h
            exact ⟨rfl, rfl, st₂, extra₂, heql, hl₂,
              fun l hm => (he₂ l hm).1, by simp [hl₂], hcode⟩

/-- C4 (witness): compiling `{ var x; }` from an empty state at depth 0:
the inner list declares one local at depth 1, and the final code is the
inner code (`Nil`) plus exactly one `Pop`, with the locals list restored. -/
theorem c4_block_scope_balance_witness :
    ∃ stMid extra,
      compile_stmt_list (⟨Chunk.new, [], 0 + 1⟩ : CompilerSt Int)
          [.Var ⟨.Identifier "x", "x", 1⟩ none] = .ok stMid ∧
      stMid.locals = ([] : List Local) ++ extra ∧
      (∀ l ∈ extra, l.scope_depth = 0 + 1) ∧
      extra.length = stMid.locals.length - ([] : List Local).length ∧
      (⟨[3, 4], [(1, 0), (0, 1)], []⟩ : Chunk Int).code =
        stMid.chunk.code ++ List.replicate extra.length OP_POP := by
  have hpop2 : popLocals (⟨[3, 4], [(1, 0), (0, 1)], []⟩ : Chunk Int) [] 0 =
      (⟨[3, 4], [(1, 0), (0, 1)], []⟩, []) := by
    rw [popLocals]
    rfl
  have hpop1 : popLocals (⟨[3], [(0, 1)], []⟩ : Chunk Int) [⟨"x", 1⟩] 0 =
      (⟨[3, 4], [(1, 0), (0, 1)], []⟩, []) := by
    rw [popLocals]
    norm_num [Chunk.add, OpCode.encode, OP_POP]
    exact hpop2
  have hrun : compile_stmt (⟨Chunk.new, [], 0⟩ : CompilerSt Int)
      (.Block [.Var ⟨.Identifier "x", "x", 1⟩ none]) =
      .ok ⟨⟨[3, 4], [(1, 0), (0, 1)], []⟩, [], 0⟩ := by
    have h1 : compile_stmt (⟨Chunk.new, [], 0⟩ : CompilerSt Int)
        (.Block [.Var ⟨.Identifier "x", "x", 1⟩ none]) =
        end_scope ⟨⟨[3], [(0, 1)], []⟩, [⟨"x", 1⟩], 1⟩ := rfl
    rw [h1]
    simp only [end_scope]
    norm_num [hpop1]
  exact (c4_block_scope_balance [.Var ⟨.Identifier "x", "x", 1⟩ none]
    ⟨Chunk.new, [], 0⟩ ⟨⟨[3, 4], [(1, 0), (0, 1)], []⟩, [], 0⟩
    (fun l hm => by simp at hm) hrun).2.2

end RLox
